import Mathlib

/-!
# Pipeline inventory (`govorukhina_lab3/main.cpp`): model and properties

A shallow embedding of the class `PipelineSystem` of `main.cpp`: the two record
collections, the id counters, the add / edit / delete operations, the id-list
selection, the searches and the text format written by `saveData` and read by
`loadData`.

Conventions of the embedding.

* `std::string` is a list of characters (`Str`); `std::vector` is a `List`.
* `int` is `Int`.  The extraction operators check the 32-bit range explicitly
  (as the library does); the program's own arithmetic on `int` (`nextPipeId++`,
  `activeWorkshops++`, `activeWorkshops--`) is exact, i.e. the model follows the
  program as long as no signed overflow (undefined in C++) occurs.
* a stored `double` is represented by the decimal numeral that denotes it
  (`Double`): the numeral typed or read, in normal form.  Numerals of up to 15
  significant digits denote different `double`s, so equality of numerals is
  equality of the values; the rounding of a numeral to the nearest binary
  number and the exponent range of `double` are outside the model.  The
  inactive percentage, which is computed and compared but never stored, is the
  exact rational quotient.
* values that C++ leaves indeterminate (locals without initialiser that a
  failed extraction does not assign) are parameters of `loadData` (`Uninit`).
* console prompts, messages and the audit log are not part of the state; an
  operation takes the values accepted by `InputValidator` as arguments.
-/

namespace Lab3

/-- Text: the characters of a `std::string`. -/
abbrev Str := List Char

/-- Decimal numeral of a `double`: sign, significant digits (most significant
first) and the power of ten of the first digit, so that `[1,2,5]` with `exp = 1`
is 12.5.  Zero has no digits. -/
structure Double where
  neg : Bool
  digits : List Nat
  exp : Int
deriving DecidableEq, Repr

/-- Record `Pipe` of the source. -/
structure Pipe where
  id : Int
  name : Str
  length : Double
  diameter : Int
  underRepair : Bool
deriving DecidableEq, Repr

/-- Record `CompressorStation` of the source. -/
structure CompressorStation where
  id : Int
  name : Str
  totalWorkshops : Int
  activeWorkshops : Int
  stationClass : Int
deriving DecidableEq, Repr

/-- Data members of `class PipelineSystem` (the logger is write-only and left out). -/
structure PipelineSystem where
  pipes : List Pipe
  stations : List CompressorStation
  nextPipeId : Int
  nextStationId : Int
deriving DecidableEq, Repr

/-- State of a freshly constructed `PipelineSystem`: no records, both counters 1. -/
def PipelineSystem.empty : PipelineSystem :=
  { pipes := [], stations := [], nextPipeId := 1, nextStationId := 1 }

/-! ## Lookup by id -/

/-- Position of the first element satisfying `p`, as `std::find_if` followed by
`std::distance`; `none` stands for the end iterator. -/
def findIf {α : Type} (p : α → Bool) : List α → Option Nat
  | [] => none
  | a :: l => if p a then some 0 else (findIf p l).map (· + 1)

/-- Model of `findPipeIndexById`; `none` stands for `-1`. -/
def findPipeIndexById (s : PipelineSystem) (id : Int) : Option Nat :=
  findIf (fun p : Pipe => p.id == id) s.pipes

/-- Model of `findStationIndexById`; `none` stands for `-1`. -/
def findStationIndexById (s : PipelineSystem) (id : Int) : Option Nat :=
  findIf (fun st : CompressorStation => st.id == id) s.stations

/-- Model of `getPipeIds`. -/
def getPipeIds (s : PipelineSystem) : List Int := s.pipes.map (·.id)

/-- Model of `getStationIds`. -/
def getStationIds (s : PipelineSystem) : List Int := s.stations.map (·.id)

/-! ## Adding and editing -/

/-- Model of `addPipe`; `name`, `length`, `diameter` are the values returned by
`getStringInput`, `getDoubleInput(.., 0.001)` and `getIntInput(.., 1)`. -/
def addPipe (s : PipelineSystem) (name : Str) (length : Double) (diameter : Int) :
    PipelineSystem :=
  let newPipe : Pipe :=
    { id := s.nextPipeId, name := name, length := length, diameter := diameter,
      underRepair := false }
  { s with nextPipeId := s.nextPipeId + 1, pipes := s.pipes ++ [newPipe] }

/-- Model of `addStation`; the arguments are the values returned by
`getStringInput`, `getIntInput(.., 1)`, `getIntInput(.., 0, totalWorkshops)` and
`getIntInput(.., 1)`. -/
def addStation (s : PipelineSystem) (name : Str) (totalWorkshops activeWorkshops
    stationClass : Int) : PipelineSystem :=
  let newStation : CompressorStation :=
    { id := s.nextStationId, name := name, totalWorkshops := totalWorkshops,
      activeWorkshops := activeWorkshops, stationClass := stationClass }
  { s with nextStationId := s.nextStationId + 1, stations := s.stations ++ [newStation] }

/-- Answers given to the prompts of `editPipe` after the id: choice 1 (toggle
the repair flag) or choice 2 with the three new values. -/
inductive PipeEdit where
  | toggleRepair
  | overwrite (name : Str) (length : Double) (diameter : Int)
deriving DecidableEq, Repr

/-- Answers given to the prompts of `editStation` after the id: choice 1 with
the `action` entered (1 start, 2 stop), or choice 2 with the three new values. -/
inductive StationEdit where
  | workshop (action : Int)
  | overwrite (name : Str) (newTotal : Int) (newClass : Int)
deriving DecidableEq, Repr

/-- Model of `editPipe`. -/
def editPipe (s : PipelineSystem) (id : Int) (e : PipeEdit) : PipelineSystem :=
  if s.pipes.isEmpty then s
  else
    match findPipeIndexById s id with
    | none => s
    | some index =>
      match s.pipes[index]? with
      | none => s
      | some p =>
        match e with
        | .toggleRepair =>
          { s with pipes := s.pipes.set index { p with underRepair := !p.underRepair } }
        | .overwrite name length diameter =>
          let q : Pipe := { p with name := name, length := length, diameter := diameter }
          { s with pipes := s.pipes.set index q }

/-- Body of `editStation` once the station at `index` is located. -/
def editStationAt (st : CompressorStation) (e : StationEdit) : CompressorStation :=
  match e with
  | .workshop action =>
    if action = 1 ∧ st.activeWorkshops < st.totalWorkshops then
      { st with activeWorkshops := st.activeWorkshops + 1 }
    else if action = 2 ∧ st.activeWorkshops > 0 then
      { st with activeWorkshops := st.activeWorkshops - 1 }
    else st
  | .overwrite name newTotal newClass =>
    let st1 := { st with name := name }
    let st2 := if newTotal < st1.activeWorkshops then { st1 with activeWorkshops := newTotal }
               else st1
    { st2 with totalWorkshops := newTotal, stationClass := newClass }

/-- Model of `editStation`. -/
def editStation (s : PipelineSystem) (id : Int) (e : StationEdit) : PipelineSystem :=
  if s.stations.isEmpty then s
  else
    match findStationIndexById s id with
    | none => s
    | some index =>
      match s.stations[index]? with
      | none => s
      | some st => { s with stations := s.stations.set index (editStationAt st e) }

/-! ## Selection by id list and deletion -/

/-- Test `std::isspace` in the "C" locale. -/
def isSpace (c : Char) : Bool :=
  c == ' ' || c == '\t' || c == '\n' || c == '\x0b' || c == '\x0c' || c == '\r'

/-- Value of a run of decimal digit characters. -/
def digitsValue (ds : Str) : Nat :=
  ds.foldl (fun n c => 10 * n + (c.toNat - 48)) 0

/-- Optional sign of a number: whether it is negative, and the text after it. -/
def scanSign : Str → Bool × Str
  | '-' :: r => (true, r)
  | '+' :: r => (false, r)
  | cs => (false, cs)

/-- Smallest value of `int`. -/
def INT_MIN : Int := -2147483648

/-- Largest value of `int`. -/
def INT_MAX : Int := 2147483647

/-- Value with the sign applied. -/
def signed (neg : Bool) (n : Nat) : Int := if neg then -(n : Int) else (n : Int)

/-- Model of `std::stoi(token)`: leading white space, an optional sign and the
longest run of digits; what follows the digits is ignored.  `none` stands for
both exceptions (`invalid_argument` when there is no digit, `out_of_range`
when the value is no `int`). -/
def stoi (token : Str) : Option Int :=
  let (neg, r) := scanSign (token.dropWhile isSpace)
  let ds := r.takeWhile Char.isDigit
  if ds.isEmpty then none
  else
    let v := signed neg (digitsValue ds)
    if INT_MIN ≤ v ∧ v ≤ INT_MAX then some v else none

/-- Tokens that the loop `while (getline(ss, token, ','))` yields; `cur` is the
part of the current token already read.  A token ends at a comma; the text
after the last comma is a token only when it is not empty. -/
def splitTokens (cur : Str) : Str → List Str
  | [] => if cur.isEmpty then [] else [cur]
  | c :: cs => if c == ',' then cur :: splitTokens [] cs else splitTokens (cur ++ [c]) cs

/-- Model of `std::unique` followed by `erase`: one element of every run of
equal neighbours is kept. -/
def unique : List Nat → List Nat
  | [] => []
  | [a] => [a]
  | a :: b :: l => if a = b then unique (b :: l) else a :: unique (b :: l)

/-- The wildcard inputs of `parseIndicesFromInput`. -/
def isWildcard (input : Str) : Bool :=
  input == "all".toList || input == "ALL".toList

/-- Positions pushed by the token loop of `parseIndicesFromInput`, before sorting. -/
def tokenIndices (input : Str) (validIds : List Int) : List Nat :=
  (splitTokens [] input).filterMap fun token =>
    match stoi token with
    | some id => findIf (fun v => v == id) validIds
    | none => none

/-- Model of `parseIndicesFromInput`. -/
def parseIndicesFromInput (input : Str) (validIds : List Int) : List Nat :=
  if isWildcard input then List.range validIds.length
  else unique (List.insertionSort (· ≤ ·) (tokenIndices input validIds))

/-- Model of `selectMultipleObjects`; `input` is the line typed at the prompt
(not read when there is no object). -/
def selectMultipleObjects (validIds : List Int) (input : Str) : List Nat :=
  if validIds.isEmpty then [] else parseIndicesFromInput input validIds

/-- Successive `vector::erase(begin() + index)` for the indices in the given
order; `none` when an index is not a position of the vector at that moment
(undefined behaviour in C++). -/
def eraseEach {α : Type} : List α → List Nat → Option (List α)
  | l, [] => some l
  | l, i :: rest => if i < l.length then eraseEach (l.eraseIdx i) rest else none

/-- Model of `deleteObjects`; `input` is the line typed at the selection prompt. -/
def deleteObjects (s : PipelineSystem) (isPipe : Bool) (input : Str) : Option PipelineSystem :=
  let indices :=
    if isPipe then selectMultipleObjects (getPipeIds s) input
    else selectMultipleObjects (getStationIds s) input
  if indices.isEmpty then some s
  else
    let sorted := List.insertionSort (· ≥ ·) indices
    if isPipe then (eraseEach s.pipes sorted).map fun l => { s with pipes := l }
    else (eraseEach s.stations sorted).map fun l => { s with stations := l }

/-! ## Search -/

/-- Positions `i0, i0 + 1, ...` of the elements satisfying `p`: the loop
`for (i = 0; i < size; ++i) if (...) result.push_back(i)`. -/
def indicesWhere {α : Type} (p : α → Bool) : List α → Nat → List Nat
  | [], _ => []
  | a :: l, i => if p a then i :: indicesWhere p l (i + 1) else indicesWhere p l (i + 1)

/-- Model of `calculateInactivePercent`.  The result is the exact quotient;
the floating-point division of the source rounds it to the nearest `double`. -/
def calculateInactivePercent (station : CompressorStation) : ℚ :=
  if station.totalWorkshops > 0 then
    100 * ((station.totalWorkshops - station.activeWorkshops : Int) : ℚ) / station.totalWorkshops
  else 0

/-- The `switch` of `findStationsByInactivePercent`. -/
def percentMatch (inactivePercent targetPercent : ℚ) (comparisonType : Int) : Bool :=
  if comparisonType = 1 then decide (inactivePercent > targetPercent)
  else if comparisonType = 2 then decide (inactivePercent < targetPercent)
  else if comparisonType = 3 then decide (|inactivePercent - targetPercent| < 1 / 100)
  else false

/-- Model of `findStationsByInactivePercent`. -/
def findStationsByInactivePercent (s : PipelineSystem) (targetPercent : ℚ)
    (comparisonType : Int) : List Nat :=
  indicesWhere
    (fun st => percentMatch (calculateInactivePercent st) targetPercent comparisonType)
    s.stations 0

/-! ## Output: the text written by `saveData` -/

/-- Character of a decimal digit. -/
def digitChar (d : Nat) : Char := Char.ofNat (48 + d)

/-- Decimal digits of `n`, most significant first; `fuel` bounds their number. -/
def decDigits : Nat → Nat → List Nat
  | 0, _ => []
  | fuel + 1, n => if n < 10 then [n] else decDigits fuel (n / 10) ++ [n % 10]

/-- Decimal digits of a natural number, most significant first (`[0]` for 0). -/
def toDigits (n : Nat) : List Nat := decDigits (n + 1) n

/-- Text of `os << n` for an unsigned integer. -/
def showNat (n : Nat) : Str := (toDigits n).map digitChar

/-- Text of `os << v` for an `int`. -/
def showInt (v : Int) : Str :=
  if v < 0 then '-' :: showNat v.natAbs else showNat v.natAbs

/-- Text of `os << b` for a `bool` (no `boolalpha`). -/
def showBool (b : Bool) : Str := if b then ['1'] else ['0']

/-- Value of a list of decimal digits, most significant first. -/
def ofDigitsBE (ds : List Nat) : Nat := ds.foldl (fun n d => 10 * n + d) 0

/-- Digits without the zeros at the end. -/
def stripTrailingZeros (ds : List Nat) : List Nat :=
  (ds.reverse.dropWhile (· == 0)).reverse

/-- Rounding of a decimal numeral to the six significant digits of the default
stream precision (a tie goes to the even digit, as the library rounds an exact
tie), zeros at the end removed: the digits and the power of ten of the first
one. -/
def roundDigits (ds : List Nat) (X : Int) : List Nat × Int :=
  if ds.length ≤ 6 then (stripTrailingZeros ds, X)
  else
    let q := ofDigitsBE (ds.take 6)
    let up :=
      match ds.drop 6 with
      | [] => false
      | d :: t => decide (d > 5) || (d == 5 && (t.any (· != 0) || q % 2 == 1))
    let q1 := if up then q + 1 else q
    if q1 = 1000000 then ([1], X + 1) else (stripTrailingZeros (toDigits q1), X)

/-- Exponent part of the scientific style: `e`, a sign, at least two digits. -/
def showExponent (X : Int) : Str :=
  'e' :: (if X < 0 then '-' else '+') ::
    (if X.natAbs < 10 then '0' :: showNat X.natAbs else showNat X.natAbs)

/-- Text of `os << x` for a `double` with the default flags: the `%g`
conversion with precision 6.  With `X` the power of ten of the first
significant digit after rounding, the fixed style is used when `-4 ≤ X < 6`
and the scientific style otherwise; zeros at the end of the fraction and a
decimal point without fraction are dropped. -/
def showDouble (x : Double) : Str :=
  let (ds, X) := roundDigits x.digits x.exp
  let sign : Str := if x.neg then ['-'] else []
  match ds with
  | [] => sign ++ ['0']
  | d :: rest =>
    if X < -4 ∨ 6 ≤ X then
      sign ++ digitChar d :: (if rest.isEmpty then [] else '.' :: rest.map digitChar)
        ++ showExponent X
    else if 0 ≤ X then
      let k := X.toNat + 1
      let intPart := (ds.take k) ++ List.replicate (k - ds.length) 0
      let frac := ds.drop k
      sign ++ intPart.map digitChar ++ (if frac.isEmpty then [] else '.' :: frac.map digitChar)
    else
      sign ++ '0' :: '.' :: (List.replicate ((-X).toNat - 1) 0 ++ ds).map digitChar

/-- Lines written for one pipe. -/
def showPipe (p : Pipe) : Str :=
  showInt p.id ++ '\n' :: p.name ++ '\n' :: showDouble p.length ++ '\n' ::
    showInt p.diameter ++ '\n' :: showBool p.underRepair ++ ['\n']

/-- Lines written for one station. -/
def showStation (st : CompressorStation) : Str :=
  showInt st.id ++ '\n' :: st.name ++ '\n' :: showInt st.totalWorkshops ++ '\n' ::
    showInt st.activeWorkshops ++ '\n' :: showInt st.stationClass ++ ['\n']

/-- File name used by `saveData` for the name typed: `.txt` is appended when
`filename.find('.')` finds no point in it. -/
def saveFileName (filename : Str) : Str :=
  if filename.contains '.' then filename else filename ++ ".txt".toList

/-- Model of `saveData`: the content of the file written (every `endl` is a
newline), the file `saveFileName filename` being opened successfully. -/
def saveData (s : PipelineSystem) : Str :=
  "NEXT_PIPE_ID ".toList ++ showInt s.nextPipeId ++ '\n' ::
  "NEXT_STATION_ID ".toList ++ showInt s.nextStationId ++ '\n' ::
  "PIPES ".toList ++ showNat s.pipes.length ++ '\n' ::
  (s.pipes.map showPipe).flatten ++
  "STATIONS ".toList ++ showNat s.stations.length ++ '\n' ::
  (s.stations.map showStation).flatten

/-! ## Input: the stream operations used by `loadData` -/

/-- State of an input file stream: the characters not yet read and the two
state flags that the operations set (`badbit` is never set on a text held in
memory). -/
structure IStream where
  rest : Str
  eofbit : Bool
  failbit : Bool
deriving DecidableEq, Repr

/-- Construction of `istream::sentry`: a stream that is not `good()` gets
`failbit`; otherwise white space is skipped unless `noskipws`, and reaching the
end while doing so sets `eofbit` and `failbit`.  The flag returned tells
whether the operation may proceed. -/
def sentry (noskipws : Bool) (f : IStream) : IStream × Bool :=
  if f.eofbit || f.failbit then ({ f with failbit := true }, false)
  else if noskipws then (f, true)
  else
    match f.rest.dropWhile isSpace with
    | [] => ({ rest := [], eofbit := true, failbit := true }, false)
    | c :: r => ({ f with rest := c :: r }, true)

/-- Model of `file >> header` for a `std::string`: the characters up to the
next white space; `old` is left in the variable when the sentry fails. -/
def readString (f : IStream) (old : Str) : IStream × Str :=
  match sentry false f with
  | (f1, false) => (f1, old)
  | (f1, true) =>
    let r := f1.rest.dropWhile (fun c => !isSpace c)
    ({ rest := r, eofbit := r.isEmpty, failbit := false },
      f1.rest.takeWhile (fun c => !isSpace c))

/-- Integer field read by `num_get`: an optional sign and the longest run of
digits.  Returns the sign, the digits and the text after them. -/
def scanInteger (cs : Str) : Bool × Str × Str :=
  let (neg, r) := scanSign cs
  (neg, r.takeWhile Char.isDigit, r.dropWhile Char.isDigit)

/-- Model of `file >> n` for an `int`.  Without a digit the value is 0 and
`failbit` is set; a value outside `int` is replaced by the nearest bound and
`failbit` is set; `eofbit` is set when the field ends the text; `old` is left
in the variable when the sentry fails. -/
def readInt (f : IStream) (old : Int) : IStream × Int :=
  match sentry false f with
  | (f1, false) => (f1, old)
  | (f1, true) =>
    let (neg, ds, r) := scanInteger f1.rest
    let v := signed neg (digitsValue ds)
    if ds.isEmpty then ({ rest := r, eofbit := r.isEmpty, failbit := true }, 0)
    else if v < INT_MIN then ({ rest := r, eofbit := r.isEmpty, failbit := true }, INT_MIN)
    else if INT_MAX < v then ({ rest := r, eofbit := r.isEmpty, failbit := true }, INT_MAX)
    else ({ rest := r, eofbit := r.isEmpty, failbit := false }, v)

/-- Number of values of `size_t`. -/
def SIZE_RANGE : Nat := 18446744073709551616

/-- Model of `file >> count` for a `size_t`: as `readInt`, except that a
negative number is taken modulo `2^64` and a number of magnitude `2^64` or
more gives the largest value and `failbit`. -/
def readSize (f : IStream) (old : Nat) : IStream × Nat :=
  match sentry false f with
  | (f1, false) => (f1, old)
  | (f1, true) =>
    let (neg, ds, r) := scanInteger f1.rest
    let n := digitsValue ds
    if ds.isEmpty then ({ rest := r, eofbit := r.isEmpty, failbit := true }, 0)
    else if SIZE_RANGE ≤ n then
      ({ rest := r, eofbit := r.isEmpty, failbit := true }, SIZE_RANGE - 1)
    else
      ({ rest := r, eofbit := r.isEmpty, failbit := false },
        if neg then (SIZE_RANGE - n) % SIZE_RANGE else n)

/-- Model of `file >> b` for a `bool` (no `boolalpha`): an integer field, of
which 0 and 1 are the two values; any other number gives `true` and `failbit`,
no digit gives `false` and `failbit`. -/
def readBool (f : IStream) (old : Bool) : IStream × Bool :=
  match sentry false f with
  | (f1, false) => (f1, old)
  | (f1, true) =>
    let (neg, ds, r) := scanInteger f1.rest
    let v := signed neg (digitsValue ds)
    if ds.isEmpty then ({ rest := r, eofbit := r.isEmpty, failbit := true }, false)
    else if v = 0 then ({ rest := r, eofbit := r.isEmpty, failbit := false }, false)
    else if v = 1 then ({ rest := r, eofbit := r.isEmpty, failbit := false }, true)
    else ({ rest := r, eofbit := r.isEmpty, failbit := true }, true)

/-- Numeric value of a digit character. -/
def digitOfChar (c : Char) : Nat := c.toNat - 48

/-- Numeral in normal form with the given sign and digits, `e0` being the power
of ten of the first digit: zeros in front and at the end are dropped. -/
def mkDouble (neg : Bool) (all : List Nat) (e0 : Int) : Double :=
  let ds := stripTrailingZeros (all.dropWhile (· == 0))
  if ds.isEmpty then { neg := neg, digits := [], exp := 0 }
  else { neg := neg, digits := ds, exp := e0 - ((all.takeWhile (· == 0)).length : Int) }

/-- Fraction of a floating-point field: a decimal point and digits, if any. -/
def scanFraction : Str → Str × Str
  | '.' :: t => (t.takeWhile Char.isDigit, t.dropWhile Char.isDigit)
  | cs => ([], cs)

/-- Exponent of a floating-point field, accepted after a mantissa with a
digit: `e` or `E`, an optional sign and digits.  Returns whether the letter is
there, the sign, the digits and the text after them. -/
def scanExponent (foundMantissa : Bool) : Str → Bool × Bool × Str × Str
  | c :: t =>
    if (c == 'e' || c == 'E') && foundMantissa then
      let (eneg, t1) := scanSign t
      (true, eneg, t1.takeWhile Char.isDigit, t1.dropWhile Char.isDigit)
    else (false, false, [], c :: t)
  | [] => (false, false, [], [])

/-- Model of `file >> x` for a `double`: sign, digits, fraction and exponent
are collected and converted as by `strtod`.  A field without a mantissa digit,
or with an exponent letter and no exponent digit, gives 0 and `failbit`. -/
def readDouble (f : IStream) (old : Double) : IStream × Double :=
  match sentry false f with
  | (f1, false) => (f1, old)
  | (f1, true) =>
    let (neg, r1) := scanSign f1.rest
    let intDs := r1.takeWhile Char.isDigit
    let (fracDs, r3) := scanFraction (r1.dropWhile Char.isDigit)
    let foundMantissa := !(intDs.isEmpty && fracDs.isEmpty)
    let (hasExp, eneg, expDs, r4) := scanExponent foundMantissa r3
    if foundMantissa && !(hasExp && expDs.isEmpty) then
      ({ rest := r4, eofbit := r4.isEmpty, failbit := false },
        mkDouble neg ((intDs ++ fracDs).map digitOfChar)
          ((intDs.length : Int) - 1 + signed eneg (digitsValue expDs)))
    else
      ({ rest := r4, eofbit := r4.isEmpty, failbit := true },
        { neg := false, digits := [], exp := 0 })

/-- Model of `file.ignore()`: one character is discarded; at the end of the
text `eofbit` is set. -/
def ignore (f : IStream) : IStream :=
  match sentry true f with
  | (f1, false) => f1
  | (f1, true) =>
    match f1.rest with
    | [] => { f1 with eofbit := true }
    | _ :: r => { f1 with rest := r }

/-- Model of `getline(file, name)`: the characters up to the next newline,
which is discarded; at the end of the text `eofbit` is set, and `failbit` too
when nothing was there; `old` is left in the variable when the sentry fails. -/
def getline (f : IStream) (old : Str) : IStream × Str :=
  match sentry true f with
  | (f1, false) => (f1, old)
  | (f1, true) =>
    let line := f1.rest.takeWhile (· != '\n')
    match f1.rest.dropWhile (· != '\n') with
    | [] => ({ rest := [], eofbit := true, failbit := line.isEmpty }, line)
    | _ :: r => ({ f1 with rest := r }, line)

/-- Model of `file.seekg(0)` on the file with content `text`: `eofbit` is
cleared, and the position is moved unless the stream has failed. -/
def seekg0 (text : Str) (f : IStream) : IStream :=
  if f.failbit then { f with eofbit := false }
  else { rest := text, eofbit := false, failbit := false }

/-! ## `loadData` -/

/-- Values of the locals of `loadData` that have no initialiser: `count`, and
the numeric fields of `pipe` and `station` at the start of each iteration. -/
structure Uninit where
  count : Nat
  pipe : Nat → Pipe
  station : Nat → CompressorStation

/-- One iteration of the first loop of `loadData`, `p0` being the local `pipe`
as declared. -/
def readPipe (f : IStream) (p0 : Pipe) : IStream × Pipe :=
  let (f, id) := readInt f p0.id
  let f := ignore f
  let (f, name) := getline f p0.name
  let (f, length) := readDouble f p0.length
  let (f, diameter) := readInt f p0.diameter
  let (f, underRepair) := readBool f p0.underRepair
  let f := ignore f
  (f, { id := id, name := name, length := length, diameter := diameter,
        underRepair := underRepair })

/-- The first loop of `loadData`: `n` iterations from iteration `i` on. -/
def readPipes (u : Uninit) : Nat → Nat → IStream → List Pipe → IStream × List Pipe
  | 0, _, f, pipes => (f, pipes)
  | n + 1, i, f, pipes =>
    let (f1, p) := readPipe f { u.pipe i with name := [] }
    readPipes u n (i + 1) f1 (pipes ++ [p])

/-- One iteration of the second loop of `loadData`, with the clamp of the
active workshops. -/
def readStation (f : IStream) (s0 : CompressorStation) : IStream × CompressorStation :=
  let (f, id) := readInt f s0.id
  let f := ignore f
  let (f, name) := getline f s0.name
  let (f, total) := readInt f s0.totalWorkshops
  let (f, active) := readInt f s0.activeWorkshops
  let (f, cls) := readInt f s0.stationClass
  let f := ignore f
  (f, { id := id, name := name, totalWorkshops := total,
        activeWorkshops := if active > total then total else active,
        stationClass := cls })

/-- The second loop of `loadData`: `n` iterations from iteration `i` on. -/
def readStations (u : Uninit) :
    Nat → Nat → IStream → List CompressorStation → IStream × List CompressorStation
  | 0, _, f, stations => (f, stations)
  | n + 1, i, f, stations =>
    let (f1, st) := readStation f { u.station i with name := [] }
    readStations u n (i + 1) f1 (stations ++ [st])

/-- How `loadData` ends on a file that could be opened. -/
inductive LoadOutcome where
  | loaded
  | formatError
deriving DecidableEq, Repr

/-- The counter header of `loadData`: stream, `header`, `nextPipeId` and
`nextStationId` after the first `if`. -/
def readCounters (text : Str) (s : PipelineSystem) : IStream × Str × Int × Int :=
  let f0 : IStream := { rest := text, eofbit := false, failbit := false }
  let (f1, header) := readString f0 []
  let (f2, nextPipeId) := readInt f1 s.nextPipeId
  if header ≠ "NEXT_PIPE_ID".toList then (seekg0 text f2, header, 1, 1)
  else
    let (f3, header1) := readString f2 header
    let (f4, nextStationId) := readInt f3 s.nextStationId
    (f4, header1, nextPipeId, nextStationId)

/-- The statement `file >> header >> count` before the first check of
`loadData`: the stream, `header` and `count` after it. -/
def readPipesMarker (text : Str) (u : Uninit) (s : PipelineSystem) : IStream × Str × Nat :=
  let f := (readCounters text s).1
  let header := (readCounters text s).2.1
  let r1 := readString f header
  let r2 := readSize r1.1 u.count
  (r2.1, r1.2, r2.2)

/-- From the first check of `loadData` to the second `file >> header >> count`:
the stream, `header`, `count` and `pipes` after it. -/
def readStationsMarker (u : Uninit) (f : IStream) (header : Str) (count : Nat) :
    IStream × Str × Nat × List Pipe :=
  let r0 := readPipes u count 0 (ignore f) []
  let r1 := readString r0.1 header
  let r2 := readSize r1.1 count
  (r2.1, r1.2, r2.2, r0.2)

/-- Model of `loadData` on a file with content `text`: the state after the
call and how the call ended. -/
def loadData (text : Str) (u : Uninit) (s : PipelineSystem) : PipelineSystem × LoadOutcome :=
  let nextPipeId := (readCounters text s).2.2.1
  let nextStationId := (readCounters text s).2.2.2
  let m1 := readPipesMarker text u s
  if m1.2.1 ≠ "PIPES".toList then
    ({ pipes := [], stations := [], nextPipeId := nextPipeId,
       nextStationId := nextStationId }, .formatError)
  else
    let m2 := readStationsMarker u m1.1 m1.2.1 m1.2.2
    if m2.2.1 ≠ "STATIONS".toList then
      ({ pipes := m2.2.2.2, stations := [], nextPipeId := nextPipeId,
         nextStationId := nextStationId }, .formatError)
    else
      let stations := (readStations u m2.2.2.1 0 (ignore m2.1) []).2
      ({ pipes := m2.2.2.2, stations := stations, nextPipeId := nextPipeId,
         nextStationId := nextStationId }, .loaded)

/-- State of the stream `file` when `loadData` returns: after the failed check
of a marker, or after the second loop. -/
def loadStream (text : Str) (u : Uninit) (s : PipelineSystem) : IStream :=
  let m1 := readPipesMarker text u s
  if m1.2.1 ≠ "PIPES".toList then m1.1
  else
    let m2 := readStationsMarker u m1.1 m1.2.1 m1.2.2
    if m2.2.1 ≠ "STATIONS".toList then m2.1
    else (readStations u m2.2.2.1 0 (ignore m2.1) []).1

/-- Indeterminate values used when a concrete run is evaluated. -/
def Uninit.zero : Uninit :=
  { count := 0,
    pipe := fun _ => { id := 0, name := [], length := { neg := false, digits := [], exp := 0 },
                       diameter := 0, underRepair := false },
    station := fun _ => { id := 0, name := [], totalWorkshops := 0, activeWorkshops := 0,
                          stationClass := 0 } }


/-! ## Sequences of operations -/

/-- One action of the menu of `run` that changes the records, with the answers
typed at its prompts: add (1, 2), edit (6, 7), delete (8 to 11). -/
inductive Op where
  | addPipe (name : Str) (length : Double) (diameter : Int)
  | addStation (name : Str) (totalWorkshops activeWorkshops stationClass : Int)
  | editPipe (id : Int) (e : PipeEdit)
  | editStation (id : Int) (e : StationEdit)
  | deleteObjects (isPipe : Bool) (input : Str)

/-- Dispatch of `run` on one action; `none` if the action has undefined behaviour. -/
def applyOp (s : PipelineSystem) : Op → Option PipelineSystem
  | .addPipe name length diameter => some (addPipe s name length diameter)
  | .addStation name total active cls => some (addStation s name total active cls)
  | .editPipe id e => some (editPipe s id e)
  | .editStation id e => some (editStation s id e)
  | .deleteObjects isPipe input => deleteObjects s isPipe input

/-- The loop of `run` over a sequence of actions. -/
def runOps (s : PipelineSystem) : List Op → Option PipelineSystem
  | [] => some s
  | op :: ops => (applyOp s op).bind fun s1 => runOps s1 ops

/-- Model of the static `toLower`: `::tolower` on every character ("C" locale). -/
def toLower (str : Str) : Str := str.map Char.toLower

/-! ## Search by name -/

/-- Whether `text` begins with `pat`. -/
def startsWith : Str → Str → Bool
  | [], _ => true
  | _ :: _, [] => false
  | p :: ps, c :: cs => p == c && startsWith ps cs

/-- Model of `text.find(pat)`: the position of the first occurrence of `pat`
in `text`; `none` stands for `npos`. -/
def strFind (pat : Str) : Str → Option Nat
  | [] => if startsWith pat [] then some 0 else none
  | c :: cs => if startsWith pat (c :: cs) then some 0 else (strFind pat cs).map (· + 1)

/-- Model of `findPipesByName`. -/
def findPipesByName (s : PipelineSystem) (searchName : Str) : List Nat :=
  indicesWhere (fun p : Pipe => (strFind (toLower searchName) (toLower p.name)).isSome)
    s.pipes 0

/-- Model of `findPipesByRepairStatus`. -/
def findPipesByRepairStatus (s : PipelineSystem) (repairStatus : Bool) : List Nat :=
  indicesWhere (fun p : Pipe => p.underRepair == repairStatus) s.pipes 0

/-- Model of `findStationsByName`. -/
def findStationsByName (s : PipelineSystem) (searchName : Str) : List Nat :=
  indicesWhere
    (fun st : CompressorStation => (strFind (toLower searchName) (toLower st.name)).isSome)
    s.stations 0

/-! ## Predicates and example stores used in the statements -/

/-- Every station has its active workshops between 0 and its total. -/
def WorkshopsInRange (s : PipelineSystem) : Prop :=
  ∀ st ∈ s.stations, 0 ≤ st.activeWorkshops ∧ st.activeWorkshops ≤ st.totalWorkshops

instance (s : PipelineSystem) : Decidable (WorkshopsInRange s) := by
  unfold WorkshopsInRange; infer_instance

/-- Store with the single station of the example: CS1, 5 workshops, 3 active, class 2. -/
def cs1Store : PipelineSystem :=
  addStation PipelineSystem.empty ['C', 'S', '1'] 5 3 2

/-- The store `s` with the station at `index` replaced by `st` with `a` active
workshops: every pipe, both counters, every other station and the other
fields of `st` are as given. -/
def withActive (s : PipelineSystem) (index : Nat) (st : CompressorStation) (a : Int) :
    PipelineSystem :=
  { s with stations := s.stations.set index { st with activeWorkshops := a } }

/-- The station CS1 after `n` times "stop a workshop". -/
def cs1Stopped : Nat → PipelineSystem
  | 0 => cs1Store
  | n + 1 => editStation (cs1Stopped n) 1 (.workshop 2)

/-- Ids named by the tokens of an id list: the values of the tokens that `stoi` accepts. -/
def namedIds (input : Str) : List Int := (splitTokens [] input).filterMap stoi

/-- Whether the selection typed as `input` covers the record with this id:
the wildcard covers every record, an id list the ids it names. -/
def selected (input : Str) (id : Int) : Bool :=
  isWildcard input || decide (id ∈ namedIds input)

/-- Number of `addPipe` calls in a sequence of actions. -/
def countAddPipe : List Op → Nat
  | [] => 0
  | .addPipe _ _ _ :: ops => countAddPipe ops + 1
  | _ :: ops => countAddPipe ops

/-- Number of `addStation` calls in a sequence of actions. -/
def countAddStation : List Op → Nat
  | [] => 0
  | .addStation _ _ _ _ :: ops => countAddStation ops + 1
  | _ :: ops => countAddStation ops

/-- Bookkeeping of the ids after `np` pipes and `ns` stations were added: the
counters are `np + 1` and `ns + 1`, the ids in use lie in `1..np` and `1..ns`
and are pairwise distinct. -/
def IdsUpTo (s : PipelineSystem) (np ns : Nat) : Prop :=
  s.nextPipeId = (np : Int) + 1 ∧ s.nextStationId = (ns : Int) + 1 ∧
  (∀ id ∈ getPipeIds s, 1 ≤ id ∧ id ≤ (np : Int)) ∧
  (∀ id ∈ getStationIds s, 1 ≤ id ∧ id ≤ (ns : Int)) ∧
  (getPipeIds s).Nodup ∧ (getStationIds s).Nodup

/-- Spellings of a word in every mixture of upper and lower case. -/
def caseVariants : Str → List Str
  | [] => [[]]
  | c :: cs => (caseVariants cs).flatMap fun v => [c.toLower :: v, c.toUpper :: v]

/-- Store with three pipes, ids 1, 2, 3, and one station. -/
def threePipes : PipelineSystem :=
  addStation
    (addPipe (addPipe (addPipe PipelineSystem.empty ['a'] ⟨false, [1], 0⟩ 100)
      ['b'] ⟨false, [2], 0⟩ 200) ['c'] ⟨false, [3], 0⟩ 300)
    ['C', 'S', '1'] 5 3 2

/-- The station CS1 with all of its 5 workshops active. -/
def cs1FullStation : CompressorStation :=
  { id := 1, name := ['C', 'S', '1'], totalWorkshops := 5, activeWorkshops := 5,
    stationClass := 2 }

/-- The store with CS1 after two workshops were started. -/
def cs1Full : PipelineSystem :=
  editStation (editStation cs1Store 1 (.workshop 1)) 1 (.workshop 1)

/-- The text contains `pat` as a run of consecutive characters. -/
def Contains (text pat : Str) : Prop := ∃ a b, text = a ++ pat ++ b

/-- Stream positioned before `rest` with no state flag set. -/
def goodAt (rest : Str) : IStream := { rest := rest, eofbit := false, failbit := false }

/-- A `double` whose numeral is in normal form and has at most six significant
digits: the digits are decimal, the first and the last are not zero, and zero
has the exponent 0. -/
def Double.SixDigits (x : Double) : Prop :=
  x.digits.length ≤ 6 ∧ (∀ d ∈ x.digits, d < 10) ∧ x.digits.head? ≠ some 0 ∧
  x.digits.getLast? ≠ some 0 ∧ (x.digits = [] → x.exp = 0)

instance (x : Double) : Decidable x.SixDigits := by
  unfold Double.SixDigits; infer_instance

/-- Text of the fraction of a number: nothing, or a point and the digits. -/
def fracText (F : List Nat) : Str := if F.isEmpty then [] else '.' :: F.map digitChar

/-- The value is an `int`. -/
def InInt (v : Int) : Prop := INT_MIN ≤ v ∧ v ≤ INT_MAX

instance (v : Int) : Decidable (InInt v) := by
  unfold InInt; infer_instance

/-- A pipe that `saveData` writes without loss: `int` fields, a name without
newline, a length of at most six significant digits. -/
def Pipe.Storable (p : Pipe) : Prop :=
  InInt p.id ∧ '\n' ∉ p.name ∧ p.length.SixDigits ∧ InInt p.diameter

instance (p : Pipe) : Decidable p.Storable := by
  unfold Pipe.Storable; infer_instance

/-- A station that `saveData` writes without loss: `int` fields, a name
without newline, and not more active workshops than workshops. -/
def CompressorStation.Storable (st : CompressorStation) : Prop :=
  InInt st.id ∧ '\n' ∉ st.name ∧ InInt st.totalWorkshops ∧ InInt st.activeWorkshops ∧
  InInt st.stationClass ∧ st.activeWorkshops ≤ st.totalWorkshops

instance (st : CompressorStation) : Decidable st.Storable := by
  unfold CompressorStation.Storable; infer_instance

/-- A store of storable records whose counters are `int` and whose sizes are `size_t`. -/
def PipelineSystem.Storable (s : PipelineSystem) : Prop :=
  InInt s.nextPipeId ∧ InInt s.nextStationId ∧
  s.pipes.length < SIZE_RANGE ∧ s.stations.length < SIZE_RANGE ∧
  (∀ p ∈ s.pipes, p.Storable) ∧ (∀ st ∈ s.stations, st.Storable)

instance (s : PipelineSystem) : Decidable s.Storable := by
  unfold PipelineSystem.Storable; infer_instance

/-- Values that the input layer accepts, as the round-trip property lists them:
pipes with a non-empty name of one line, a positive length and a diameter of
at least 1; stations with at least one workshop, between 0 and that many
active ones, and a class of at least 1. -/
def PipelineSystem.Accepted (s : PipelineSystem) : Prop :=
  (∀ p ∈ s.pipes, p.name ≠ [] ∧ '\n' ∉ p.name ∧
    (p.length.neg = false ∧ p.length.digits ≠ []) ∧ 1 ≤ p.diameter) ∧
  (∀ st ∈ s.stations, 1 ≤ st.totalWorkshops ∧ 0 ≤ st.activeWorkshops ∧
    st.activeWorkshops ≤ st.totalWorkshops ∧ 1 ≤ st.stationClass)

instance (s : PipelineSystem) : Decidable s.Accepted := by
  unfold PipelineSystem.Accepted; infer_instance

/-- The store of the example: the pipe "Main" of length 12.5 and diameter 500
is added and its repair flag toggled. -/
def mainStore : PipelineSystem :=
  editPipe (addPipe PipelineSystem.empty ['M', 'a', 'i', 'n'] ⟨false, [1, 2, 5], 1⟩ 500)
    1 .toggleRepair

/-- A store with one pipe whose length, 1234567, has seven significant digits. -/
def longPipeStore : PipelineSystem :=
  addPipe PipelineSystem.empty ['M', 'a', 'i', 'n'] ⟨false, [1, 2, 3, 4, 5, 6, 7], 6⟩ 500

/-- Text of a comma-separated list of ids. -/
def joinIds : List Int → Str
  | [] => []
  | [a] => showInt a
  | a :: b :: l => showInt a ++ ',' :: joinIds (b :: l)


/-- A station that `saveData` writes as it is: `int` fields and a name without
newline; the active workshops may exceed the total. -/
def CompressorStation.Writable (st : CompressorStation) : Prop :=
  InInt st.id ∧ '\n' ∉ st.name ∧ InInt st.totalWorkshops ∧ InInt st.activeWorkshops ∧
  InInt st.stationClass

instance (st : CompressorStation) : Decidable st.Writable := by
  unfold CompressorStation.Writable; infer_instance

/-- A store of storable pipes and writable stations whose counters are `int`
and whose sizes are `size_t`. -/
def PipelineSystem.Writable (s : PipelineSystem) : Prop :=
  InInt s.nextPipeId ∧ InInt s.nextStationId ∧
  s.pipes.length < SIZE_RANGE ∧ s.stations.length < SIZE_RANGE ∧
  (∀ p ∈ s.pipes, p.Storable) ∧ (∀ st ∈ s.stations, st.Writable)

instance (s : PipelineSystem) : Decidable s.Writable := by
  unfold PipelineSystem.Writable; infer_instance

/-- A store, as a file can describe it, with the station CS1 of 3 workshops
and 9 active ones and the station CS2 of 5 workshops and 2 active ones. -/
def overfullStore : PipelineSystem :=
  { pipes := [],
    stations := [{ id := 1, name := ['C', 'S', '1'], totalWorkshops := 3,
                   activeWorkshops := 9, stationClass := 1 },
                 { id := 2, name := ['C', 'S', '2'], totalWorkshops := 5,
                   activeWorkshops := 2, stationClass := 1 }],
    nextPipeId := 1, nextStationId := 3 }

/-- Last component of a path: what follows the last `/`. -/
def lastComponent (filename : Str) : Str :=
  (filename.reverse.takeWhile (· != '/')).reverse

/-- Indeterminate values other than those of `Uninit.zero`. -/
def Uninit.seven : Uninit :=
  { count := 7,
    pipe := fun _ => { id := 7, name := [], length := { neg := false, digits := [7], exp := 0 },
                       diameter := 7, underRepair := true },
    station := fun _ => { id := 7, name := [], totalWorkshops := 7, activeWorkshops := 7,
                          stationClass := 7 } }

/-- A file whose `STATIONS` marker announces two stations and which ends after
the first one. -/
def truncatedFile : Str :=
  "NEXT_PIPE_ID 1\nNEXT_STATION_ID 2\nPIPES 0\nSTATIONS 2\n1\nCS1\n5\n3\n2\n".toList

/-- The bytes of the word "Труба" in UTF-8: the first letter is upper case. -/
def trubaUpper : Str :=
  ['\xD0', '\xA2', '\xD1', '\x80', '\xD1', '\x83', '\xD0', '\xB1', '\xD0', '\xB0']

/-- The bytes of the word "труба" in UTF-8: the same letters in lower case. -/
def trubaLower : Str :=
  ['\xD1', '\x82', '\xD1', '\x80', '\xD1', '\x83', '\xD0', '\xB1', '\xD0', '\xB0']

/-- Store with the single pipe named "Труба". -/
def trubaStore : PipelineSystem :=
  addPipe PipelineSystem.empty trubaUpper ⟨false, [1], 0⟩ 100
/-! ## Properties -/

theorem findIf_some {α : Type} (p : α → Bool) (l : List α) (i : Nat)
    (h : findIf p l = some i) : ∃ a, l[i]? = some a ∧ p a = true := by
  induction l generalizing i with
  | nil => simp [findIf] at h
  | cons b l ih =>
    unfold findIf at h
    split at h
    · cases h; exact ⟨b, by simp, by assumption⟩
    · cases hf : findIf p l with
      | none => simp [hf] at h
      | some j =>
        simp [hf] at h
        subst h
        obtain ⟨a, ha, hp⟩ := ih j hf
        exact ⟨a, by simpa using ha, hp⟩

theorem editStationAt_inRange (st : CompressorStation) (e : StationEdit)
    (h : 0 ≤ st.activeWorkshops ∧ st.activeWorkshops ≤ st.totalWorkshops)
    (he : ∀ name t c, e = .overwrite name t c → 1 ≤ t) :
    0 ≤ (editStationAt st e).activeWorkshops ∧
      (editStationAt st e).activeWorkshops ≤ (editStationAt st e).totalWorkshops := by
  cases e with
  | workshop action =>
    unfold editStationAt
    dsimp only
    split_ifs <;> (try dsimp only) <;> omega
  | overwrite name t c =>
    have ht := he name t c rfl
    unfold editStationAt
    dsimp only
    split_ifs <;> (try dsimp only) <;> omega

theorem editStation_inRange (s : PipelineSystem) (id : Int) (e : StationEdit)
    (h : WorkshopsInRange s) (he : ∀ name t c, e = .overwrite name t c → 1 ≤ t) :
    WorkshopsInRange (editStation s id e) := by
  unfold editStation
  split_ifs
  · exact h
  · cases hf : findStationIndexById s id with
    | none => exact h
    | some index =>
      dsimp only
      cases hst : s.stations[index]? with
      | none => exact h
      | some st =>
        dsimp only
        intro x hx
        rcases List.mem_or_eq_of_mem_set hx with hx | hx
        · exact h x hx
        · subst hx
          exact editStationAt_inRange st e (h st (List.getElem?_mem hst)) he

theorem editStation_found (s : PipelineSystem) (id : Int) (e : StationEdit) (index : Nat)
    (st : CompressorStation) (hfind : findStationIndexById s id = some index)
    (hst : s.stations[index]? = some st) :
    editStation s id e = { s with stations := s.stations.set index (editStationAt st e) } := by
  unfold editStation
  have hne : s.stations.isEmpty = false := by
    cases hs : s.stations with
    | nil => rw [hs] at hst; simp at hst
    | cons a l => rfl
  simp [hne, hfind, hst]

theorem editStation_notFound (s : PipelineSystem) (id : Int) (e : StationEdit)
    (hfind : findStationIndexById s id = none) : editStation s id e = s := by
  unfold editStation
  simp [hfind]

/-- C2. When every station has `0 ≤ activeWorkshops ≤ totalWorkshops`, this still
holds after `addStation` with accepted inputs and after `editStation` whatever
its outcome (workshop started or stopped or left as it is, parameters
overwritten with a new total of at least 1, id not found, which changes
nothing); an overwrite leaves the edited station with
`min (old activeWorkshops) (new totalWorkshops)` active workshops. -/
theorem C2_station_workshop_invariant (s : PipelineSystem) (h : WorkshopsInRange s) :
    (∀ name total active cls, 1 ≤ total → 0 ≤ active → active ≤ total → 1 ≤ cls →
      WorkshopsInRange (addStation s name total active cls)) ∧
    (∀ id action, WorkshopsInRange (editStation s id (.workshop action))) ∧
    (∀ id name newTotal newClass, 1 ≤ newTotal →
      WorkshopsInRange (editStation s id (.overwrite name newTotal newClass))) ∧
    (∀ id e, findStationIndexById s id = none → editStation s id e = s) ∧
    (∀ id name newTotal newClass index st, findStationIndexById s id = some index →
      s.stations[index]? = some st →
      ((editStation s id (.overwrite name newTotal newClass)).stations[index]?).map
        (·.activeWorkshops) = some (min st.activeWorkshops newTotal)) := by
  refine ⟨?_, ?_, ?_, ?_, ?_⟩
  · intro name total active cls _ h0 h1 _ st hst
    simp only [addStation, List.mem_append, List.mem_singleton] at hst
    rcases hst with hst | hst
    · exact h st hst
    · subst hst; exact ⟨h0, h1⟩
  · intro id action
    exact editStation_inRange s id _ h (by intro _ _ _ he; cases he)
  · intro id name newTotal newClass ht
    exact editStation_inRange s id _ h (by intro _ _ _ he; cases he; exact ht)
  · intro id e hfind
    exact editStation_notFound s id e hfind
  · intro id name newTotal newClass index st hfind hst
    rw [editStation_found s id _ index st hfind hst]
    have hlt : index < s.stations.length := by
      rcases Nat.lt_or_ge index s.stations.length with hl | hl
      · exact hl
      · rw [List.getElem?_eq_none hl] at hst; cases hst
    simp only [List.getElem?_set_self hlt, Option.map_some', editStationAt]
    congr 1
    split_ifs with hc
    · exact (min_eq_right (le_of_lt hc)).symm
    · exact (min_eq_left (not_lt.mp hc)).symm

/-- C2 at the store holding the station CS1 (5 workshops, 3 active). -/
theorem C2_station_workshop_invariant_witness :
    WorkshopsInRange cs1Store ∧
    ((∀ name total active cls, 1 ≤ total → 0 ≤ active → active ≤ total → 1 ≤ cls →
      WorkshopsInRange (addStation cs1Store name total active cls)) ∧
    (∀ id action, WorkshopsInRange (editStation cs1Store id (.workshop action))) ∧
    (∀ id name newTotal newClass, 1 ≤ newTotal →
      WorkshopsInRange (editStation cs1Store id (.overwrite name newTotal newClass))) ∧
    (∀ id e, findStationIndexById cs1Store id = none → editStation cs1Store id e = cs1Store) ∧
    (∀ id name newTotal newClass index st, findStationIndexById cs1Store id = some index →
      cs1Store.stations[index]? = some st →
      ((editStation cs1Store id (.overwrite name newTotal newClass)).stations[index]?).map
        (·.activeWorkshops) = some (min st.activeWorkshops newTotal))) :=
  ⟨by decide, C2_station_workshop_invariant cs1Store (by decide)⟩

/-- C6. For the station `st` that `editStation` finds for `id` (at `index`):
starting a workshop when `activeWorkshops < totalWorkshops` adds exactly 1 and
stopping one when `activeWorkshops > 0` subtracts exactly 1; starting at
`activeWorkshops = totalWorkshops` and stopping at `activeWorkshops = 0` leave
the whole store unchanged; and whatever the action entered, nothing but the
field `activeWorkshops` of that station can differ afterwards. -/
theorem C6_workshop_start_stop (s : PipelineSystem) (id : Int) (index : Nat)
    (st : CompressorStation) (hfind : findStationIndexById s id = some index)
    (hst : s.stations[index]? = some st) :
    (st.activeWorkshops < st.totalWorkshops →
      editStation s id (.workshop 1) = withActive s index st (st.activeWorkshops + 1)) ∧
    (st.activeWorkshops > 0 →
      editStation s id (.workshop 2) = withActive s index st (st.activeWorkshops - 1)) ∧
    (st.activeWorkshops = st.totalWorkshops → editStation s id (.workshop 1) = s) ∧
    (st.activeWorkshops = 0 → editStation s id (.workshop 2) = s) ∧
    (∀ action, ∃ a, editStation s id (.workshop action) = withActive s index st a) := by
  have hself : { s with stations := s.stations.set index st } = s := by
    have : s.stations.set index st = s.stations := by
      apply List.ext_getElem?
      intro j
      by_cases hj : index = j
      · subst hj
        rcases Nat.lt_or_ge index s.stations.length with hl | hl
        · rw [List.getElem?_set_self hl, hst]
        · rw [List.getElem?_eq_none hl] at hst; cases hst
      · rw [List.getElem?_set_ne hj]
    rw [this]
  refine ⟨?_, ?_, ?_, ?_, ?_⟩
  · intro hlt
    rw [editStation_found s id _ index st hfind hst]
    simp [editStationAt, hlt, withActive]
  · intro hgt
    rw [editStation_found s id _ index st hfind hst]
    simp [editStationAt, hgt, withActive]
  · intro heq
    rw [editStation_found s id _ index st hfind hst]
    simp only [editStationAt, heq, lt_self_iff_false, and_false, if_false]
    have h12 : ¬ ((1 : Int) = 2 ∧ st.totalWorkshops > 0) := by omega
    simp only [h12, if_false]
    exact hself
  · intro heq
    rw [editStation_found s id _ index st hfind hst]
    have h1 : ¬ ((2 : Int) = 1 ∧ (0 : Int) < st.totalWorkshops) := by omega
    have h2 : ¬ ((2 : Int) = 2 ∧ (0 : Int) > 0) := by omega
    simp only [editStationAt, heq, h1, h2, if_false]
    exact hself
  · intro action
    rw [editStation_found s id _ index st hfind hst]
    unfold editStationAt
    dsimp only
    split_ifs
    · exact ⟨_, rfl⟩
    · exact ⟨_, rfl⟩
    · exact ⟨st.activeWorkshops, rfl⟩

/-- C6 on the example: CS1 (total 5, active 3) has no active workshop after
three stops, and a fourth stop changes nothing. -/
theorem C6_workshop_start_stop_witness :
    (cs1Stopped 3).stations.map (·.activeWorkshops) = [0] ∧
    editStation (cs1Stopped 3) 1 (.workshop 2) = cs1Stopped 3 :=
  ⟨by decide,
   (C6_workshop_start_stop (cs1Stopped 3) 1 0
      { id := 1, name := ['C', 'S', '1'], totalWorkshops := 5, activeWorkshops := 0,
        stationClass := 2 } (by decide) (by decide)).2.2.2.1 rfl⟩

/-! ### Selection: `findIf`, `unique`, `indicesWhere`, `eraseEach` -/

theorem findIf_of_nodup (l : List Int) (hd : l.Nodup) (i : Nat) (id : Int)
    (h : l[i]? = some id) : findIf (fun v => v == id) l = some i := by
  induction l generalizing i with
  | nil => simp at h
  | cons b l ih =>
    rw [List.nodup_cons] at hd
    unfold findIf
    cases i with
    | zero =>
      simp at h
      simp [h]
    | succ j =>
      simp at h
      have hmem : id ∈ l := List.getElem?_mem h
      have hne : b ≠ id := by
        intro hb; subst hb; exact hd.1 hmem
      simp [hne, ih hd.2 j h]

theorem mem_unique_cons (l : List Nat) (a x : Nat) :
    x ∈ unique (a :: l) ↔ x = a ∨ x ∈ l := by
  induction l generalizing a with
  | nil => simp [unique]
  | cons b l ih =>
    unfold unique
    split_ifs with hab
    · subst hab
      rw [ih]
      simp
    · rw [List.mem_cons, ih]
      simp

theorem mem_unique (l : List Nat) (x : Nat) : x ∈ unique l ↔ x ∈ l := by
  cases l with
  | nil => simp [unique]
  | cons a l => rw [mem_unique_cons]; simp

theorem unique_sorted_cons (l : List Nat) (a : Nat) (h : (a :: l).Sorted (· ≤ ·)) :
    (unique (a :: l)).Sorted (· < ·) := by
  induction l generalizing a with
  | nil => simp [unique]
  | cons b l ih =>
    have htail : (b :: l).Sorted (· ≤ ·) := List.Sorted.of_cons h
    have hab : a ≤ b := List.rel_of_sorted_cons h b (List.mem_cons_self b l)
    unfold unique
    split_ifs with he
    · exact ih b htail
    · refine List.sorted_cons.2 ⟨?_, ih b htail⟩
      intro x hx
      rw [mem_unique_cons] at hx
      have hbx : b ≤ x := by
        rcases hx with hx | hx
        · omega
        · exact List.rel_of_sorted_cons htail x hx
      omega

theorem unique_sorted (l : List Nat) (h : l.Sorted (· ≤ ·)) : (unique l).Sorted (· < ·) := by
  cases l with
  | nil => simp [unique]
  | cons a l => exact unique_sorted_cons l a h

theorem indicesWhere_mem {α : Type} (p : α → Bool) (l : List α) (k i : Nat) :
    i ∈ indicesWhere p l k ↔ k ≤ i ∧ ∃ a, l[i - k]? = some a ∧ p a = true := by
  induction l generalizing k with
  | nil => simp [indicesWhere]
  | cons b l ih =>
    unfold indicesWhere
    have key : (k + 1 ≤ i ∧ ∃ a, l[i - (k + 1)]? = some a ∧ p a = true) ↔
        (k < i ∧ ∃ a, (b :: l)[i - k]? = some a ∧ p a = true) := by
      constructor
      · rintro ⟨h1, a, h2, h3⟩
        refine ⟨h1, a, ?_, h3⟩
        have : i - k = (i - (k + 1)) + 1 := by omega
        rw [this]; simpa using h2
      · rintro ⟨h1, a, h2, h3⟩
        refine ⟨h1, a, ?_, h3⟩
        have : i - k = (i - (k + 1)) + 1 := by omega
        rw [this] at h2; simpa using h2
    split_ifs with hb
    · rw [List.mem_cons, ih, key]
      constructor
      · rintro (h | h)
        · subst h; exact ⟨le_refl _, b, by simp, hb⟩
        · exact ⟨le_of_lt h.1, h.2⟩
      · rintro ⟨h1, a, h2, h3⟩
        rcases Nat.eq_or_lt_of_le h1 with h | h
        · left; exact h.symm
        · right; exact ⟨h, a, h2, h3⟩
    · rw [ih, key]
      constructor
      · rintro h; exact ⟨le_of_lt h.1, h.2⟩
      · rintro ⟨h1, a, h2, h3⟩
        rcases Nat.eq_or_lt_of_le h1 with h | h
        · subst h
          simp at h2
          subst h2
          exact absurd h3 hb
        · exact ⟨h, a, h2, h3⟩

theorem indicesWhere_sorted {α : Type} (p : α → Bool) (l : List α) (k : Nat) :
    (indicesWhere p l k).Sorted (· < ·) := by
  induction l generalizing k with
  | nil => simp [indicesWhere]
  | cons b l ih =>
    unfold indicesWhere
    split_ifs with hb
    · refine List.sorted_cons.2 ⟨?_, ih (k + 1)⟩
      intro x hx
      rw [indicesWhere_mem] at hx
      omega
    · exact ih (k + 1)

theorem indicesWhere_append {α : Type} (p : α → Bool) (l : List α) (a : α) (k : Nat) :
    indicesWhere p (l ++ [a]) k =
      indicesWhere p l k ++ (if p a then [k + l.length] else []) := by
  induction l generalizing k with
  | nil => simp [indicesWhere]
  | cons b l ih =>
    have hk : k + 1 + l.length = k + (l.length + 1) := by omega
    simp only [List.cons_append, indicesWhere, List.length_cons, List.append_eq]
    rw [ih (k + 1), hk]
    split_ifs <;> simp

theorem indicesWhere_map {α β : Type} (f : α → β) (p : β → Bool) (l : List α) (k : Nat) :
    indicesWhere p (l.map f) k = indicesWhere (fun a => p (f a)) l k := by
  induction l generalizing k with
  | nil => simp [indicesWhere]
  | cons b l ih => simp [indicesWhere, ih]

theorem eraseEach_append {α : Type} (l l1 t : List α) (is : List Nat)
    (h : eraseEach l is = some l1) : eraseEach (l ++ t) is = some (l1 ++ t) := by
  induction is generalizing l with
  | nil => simp [eraseEach] at h ⊢; rw [h]
  | cons i rest ih =>
    unfold eraseEach at h ⊢
    split_ifs at h with hi
    have hi2 : i < (l ++ t).length := by rw [List.length_append]; omega
    rw [if_pos hi2, List.eraseIdx_append_of_lt_length hi]
    exact ih _ h

/-- Erasing the positions of the elements that satisfy `p`, the highest first,
leaves the elements that do not satisfy `p`, in their order. -/
theorem eraseEach_indicesWhere {α : Type} (p : α → Bool) (l : List α) :
    eraseEach l (indicesWhere p l 0).reverse = some (l.filter (fun a => !p a)) := by
  induction l using List.reverseRecOn with
  | nil => simp [indicesWhere, eraseEach]
  | append_singleton l a ih =>
    rw [indicesWhere_append, List.reverse_append, List.filter_append]
    by_cases hp : p a = true
    · simp only [hp, if_true, List.reverse_cons, List.reverse_nil, List.nil_append,
        List.singleton_append, Nat.zero_add]
      unfold eraseEach
      have hlen : l.length < (l ++ [a]).length := by simp
      rw [if_pos hlen]
      have : (l ++ [a]).eraseIdx l.length = l := by
        rw [List.eraseIdx_append_of_length_le (le_refl _)]
        simp
      rw [this, ih]
      simp [hp]
    · simp only [hp, List.reverse_nil, List.nil_append]
      have h2 := eraseEach_append l _ [a] _ ih
      simp only [Bool.false_eq_true, if_false, List.reverse_nil, List.nil_append]
      rw [h2]
      simp [hp]

theorem sorted_lt_ext (l1 l2 : List Nat) (h1 : l1.Sorted (· < ·)) (h2 : l2.Sorted (· < ·))
    (h : ∀ x, x ∈ l1 ↔ x ∈ l2) : l1 = l2 := by
  have hp : l1.Perm l2 := (List.perm_ext_iff_of_nodup h1.nodup h2.nodup).2 h
  exact List.eq_of_perm_of_sorted hp h1 h2

theorem insertionSort_ge_of_sorted_lt (l : List Nat) (h : l.Sorted (· < ·)) :
    List.insertionSort (· ≥ ·) l = l.reverse := by
  have hp : (List.insertionSort (· ≥ ·) l).Perm l.reverse :=
    (List.perm_insertionSort _ l).trans (List.reverse_perm l).symm
  have hs1 : (List.insertionSort (· ≥ ·) l).Sorted (· ≥ ·) := List.sorted_insertionSort _ l
  have hs2 : l.reverse.Sorted (· ≥ ·) := by
    rw [List.Sorted, List.pairwise_reverse]
    exact h.imp (fun hab => le_of_lt hab)
  exact List.eq_of_perm_of_sorted hp hs1 hs2


theorem indicesWhere_true {α : Type} (l : List α) (k : Nat) :
    indicesWhere (fun _ => true) l k = List.range' k l.length := by
  induction l generalizing k with
  | nil => simp [indicesWhere]
  | cons b l ih => simp [indicesWhere, ih, List.range'_succ]

theorem mem_tokenIndices (input : Str) (validIds : List Int) (hd : validIds.Nodup) (i : Nat) :
    i ∈ tokenIndices input validIds ↔
      ∃ token ∈ splitTokens [] input, ∃ id, stoi token = some id ∧ validIds[i]? = some id := by
  unfold tokenIndices
  rw [List.mem_filterMap]
  constructor
  · rintro ⟨token, htok, h⟩
    refine ⟨token, htok, ?_⟩
    cases hs : stoi token with
    | none => rw [hs] at h; cases h
    | some id =>
      rw [hs] at h
      obtain ⟨a, ha, hpa⟩ := findIf_some _ _ _ h
      have : a = id := by simpa using hpa
      subst this
      exact ⟨a, rfl, ha⟩
  · rintro ⟨token, htok, id, hs, hi⟩
    refine ⟨token, htok, ?_⟩
    rw [hs]
    exact findIf_of_nodup validIds hd i id hi

theorem mem_namedIds (input : Str) (id : Int) :
    id ∈ namedIds input ↔ ∃ token ∈ splitTokens [] input, stoi token = some id := by
  unfold namedIds
  rw [List.mem_filterMap]

theorem parseIndices_eq_indicesWhere (input : Str) (validIds : List Int)
    (hd : validIds.Nodup) :
    parseIndicesFromInput input validIds = indicesWhere (selected input) validIds 0 := by
  unfold parseIndicesFromInput
  by_cases hw : isWildcard input = true
  · rw [if_pos hw]
    have : selected input = fun _ => true := by
      funext id; simp [selected, hw]
    rw [this, indicesWhere_true, List.range_eq_range']
  · rw [if_neg hw]
    apply sorted_lt_ext
    · exact unique_sorted _ (List.sorted_insertionSort _ _)
    · exact indicesWhere_sorted _ _ _
    · intro i
      rw [mem_unique, (List.perm_insertionSort _ _).mem_iff, mem_tokenIndices input validIds hd,
        indicesWhere_mem]
      simp only [Nat.zero_le, true_and, Nat.sub_zero, selected, hw, Bool.false_or,
        decide_eq_true_eq, mem_namedIds]
      constructor
      · rintro ⟨token, htok, id, hs, hi⟩
        exact ⟨id, hi, token, htok, hs⟩
      · rintro ⟨id, hi, token, htok, hs⟩
        exact ⟨token, htok, id, hs, hi⟩

theorem eraseEach_selected {α : Type} (l : List α) (f : α → Int) (input : Str)
    (hd : (l.map f).Nodup) :
    (if (selectMultipleObjects (l.map f) input).isEmpty then some l
      else eraseEach l (List.insertionSort (· ≥ ·) (selectMultipleObjects (l.map f) input))) =
      some (l.filter (fun a => !selected input (f a))) := by
  have key := eraseEach_indicesWhere (fun a => selected input (f a)) l
  unfold selectMultipleObjects
  by_cases he : (l.map f).isEmpty = true
  · have hl : l = [] := by simpa using he
    subst hl
    simp
  · rw [if_neg he, parseIndices_eq_indicesWhere input _ hd, indicesWhere_map]
    by_cases hr : (indicesWhere (fun a => selected input (f a)) l 0).isEmpty = true
    · rw [if_pos hr]
      have hnil : indicesWhere (fun a => selected input (f a)) l 0 = [] := by simpa using hr
      rw [hnil] at key
      simpa [eraseEach] using key
    · rw [if_neg hr, insertionSort_ge_of_sorted_lt _ (indicesWhere_sorted _ _ _)]
      exact key

theorem deleteObjects_pipes (s : PipelineSystem) (input : Str) (hd : (getPipeIds s).Nodup) :
    deleteObjects s true input =
      some { s with pipes := s.pipes.filter (fun p => !selected input p.id) } := by
  have key := eraseEach_selected s.pipes (·.id) input hd
  unfold deleteObjects
  simp only [if_true, getPipeIds]
  split_ifs with he
  · rw [if_pos he] at key
    have := Option.some.inj key
    rw [← this]
  · rw [if_neg he] at key
    rw [key]; rfl

theorem deleteObjects_stations (s : PipelineSystem) (input : Str)
    (hd : (getStationIds s).Nodup) :
    deleteObjects s false input =
      some { s with stations := s.stations.filter (fun st => !selected input st.id) } := by
  have key := eraseEach_selected s.stations (·.id) input hd
  unfold deleteObjects
  simp only [Bool.false_eq_true, if_false, getStationIds]
  split_ifs with he
  · rw [if_pos he] at key
    have := Option.some.inj key
    rw [← this]
  · rw [if_neg he] at key
    rw [key]; rfl

/-- C5. For an input that is not a wildcard and pairwise distinct valid ids,
`parseIndicesFromInput` returns a strictly ascending list, hence without
duplicates, of positions below the number of valid ids; position `i` is in it
exactly when some comma-separated token of the input is a number (for `stoi`)
whose value is `validIds[i]`.  So a token that is no number, and an id that is
not among the valid ids, add nothing. -/
theorem C5_parseIndices_normal_form (input : Str) (validIds : List Int)
    (hw : isWildcard input = false) (hd : validIds.Nodup) :
    (parseIndicesFromInput input validIds).Sorted (· < ·) ∧
    (parseIndicesFromInput input validIds).Nodup ∧
    (∀ i ∈ parseIndicesFromInput input validIds, i < validIds.length) ∧
    (∀ i, i ∈ parseIndicesFromInput input validIds ↔
      ∃ token ∈ splitTokens [] input, ∃ id, stoi token = some id ∧ validIds[i]? = some id) := by
  have hs : (parseIndicesFromInput input validIds).Sorted (· < ·) := by
    rw [parseIndices_eq_indicesWhere input validIds hd]
    exact indicesWhere_sorted _ _ _
  have hmem : ∀ i, i ∈ parseIndicesFromInput input validIds ↔
      ∃ token ∈ splitTokens [] input, ∃ id, stoi token = some id ∧ validIds[i]? = some id := by
    intro i
    unfold parseIndicesFromInput
    rw [hw]
    simp only [Bool.false_eq_true, if_false]
    rw [mem_unique, (List.perm_insertionSort _ _).mem_iff, mem_tokenIndices input validIds hd]
  refine ⟨hs, hs.nodup, ?_, hmem⟩
  intro i hi
  obtain ⟨_, _, id, _, hid⟩ := (hmem i).1 hi
  rcases Nat.lt_or_ge i validIds.length with hl | hl
  · exact hl
  · rw [List.getElem?_eq_none hl] at hid; cases hid

/-- C5 on an input with white space, a repeated id, an unknown id, an empty
token and tokens that are no numbers. -/
theorem C5_parseIndices_normal_form_witness :
    isWildcard "3, 1,x,,7,1,+2abc".toList = false ∧ [10, 1, 3, 2].Nodup ∧
    parseIndicesFromInput "3, 1,x,,7,1,+2abc".toList [10, 1, 3, 2] = [1, 2, 3] ∧
    (parseIndicesFromInput "3, 1,x,,7,1,+2abc".toList [10, 1, 3, 2]).Sorted (· < ·) :=
  ⟨by decide, by decide, by decide,
    (C5_parseIndices_normal_form "3, 1,x,,7,1,+2abc".toList [10, 1, 3, 2]
      (by decide) (by decide)).1⟩


/-! ### Ids -/

theorem getPipeIds_editPipe (s : PipelineSystem) (id : Int) (e : PipeEdit) :
    getPipeIds (editPipe s id e) = getPipeIds s ∧
    (editPipe s id e).stations = s.stations ∧
    (editPipe s id e).nextPipeId = s.nextPipeId ∧
    (editPipe s id e).nextStationId = s.nextStationId := by
  unfold editPipe
  split_ifs
  · exact ⟨rfl, rfl, rfl, rfl⟩
  · cases hf : findPipeIndexById s id with
    | none => exact ⟨rfl, rfl, rfl, rfl⟩
    | some index =>
      dsimp only
      cases hp : s.pipes[index]? with
      | none => exact ⟨rfl, rfl, rfl, rfl⟩
      | some p =>
        dsimp only
        have hset : ∀ q : Pipe, q.id = p.id →
            (s.pipes.set index q).map (·.id) = s.pipes.map (·.id) := by
          intro q hq
          rw [List.map_set]
          apply List.ext_getElem?
          intro j
          by_cases hj : index = j
          · subst hj
            rcases Nat.lt_or_ge index s.pipes.length with hl | hl
            · rw [List.getElem?_set_self (by simpa using hl)]
              simp [hp, hq]
            · rw [List.getElem?_eq_none hl] at hp; cases hp
          · rw [List.getElem?_set_ne hj]
        cases e with
        | toggleRepair => exact ⟨hset _ rfl, rfl, rfl, rfl⟩
        | overwrite name length diameter => exact ⟨hset _ rfl, rfl, rfl, rfl⟩

theorem editStationAt_id (st : CompressorStation) (e : StationEdit) :
    (editStationAt st e).id = st.id := by
  cases e with
  | workshop action =>
    unfold editStationAt
    dsimp only
    split_ifs <;> rfl
  | overwrite name t c =>
    unfold editStationAt
    dsimp only
    split_ifs <;> rfl

theorem getStationIds_editStation (s : PipelineSystem) (id : Int) (e : StationEdit) :
    getStationIds (editStation s id e) = getStationIds s ∧
    (editStation s id e).pipes = s.pipes ∧
    (editStation s id e).nextPipeId = s.nextPipeId ∧
    (editStation s id e).nextStationId = s.nextStationId := by
  unfold editStation
  split_ifs
  · exact ⟨rfl, rfl, rfl, rfl⟩
  · cases hf : findStationIndexById s id with
    | none => exact ⟨rfl, rfl, rfl, rfl⟩
    | some index =>
      dsimp only
      cases hst : s.stations[index]? with
      | none => exact ⟨rfl, rfl, rfl, rfl⟩
      | some st =>
        dsimp only
        refine ⟨?_, rfl, rfl, rfl⟩
        show (s.stations.set index (editStationAt st e)).map (·.id) = s.stations.map (·.id)
        rw [List.map_set]
        apply List.ext_getElem?
        intro j
        by_cases hj : index = j
        · subst hj
          rcases Nat.lt_or_ge index s.stations.length with hl | hl
          · rw [List.getElem?_set_self (by simpa using hl)]
            simp [hst, editStationAt_id]
          · rw [List.getElem?_eq_none hl] at hst; cases hst
        · rw [List.getElem?_set_ne hj]

theorem applyOp_idsUpTo (s : PipelineSystem) (op : Op) (np ns : Nat) (h : IdsUpTo s np ns) :
    ∃ s1, applyOp s op = some s1 ∧
      IdsUpTo s1 (np + countAddPipe [op]) (ns + countAddStation [op]) := by
  obtain ⟨h1, h2, h3, h4, h5, h6⟩ := h
  cases op with
  | addPipe name length diameter =>
    refine ⟨_, rfl, ?_⟩
    simp only [countAddPipe, countAddStation, Nat.add_zero]
    refine ⟨?_, h2, ?_, h4, ?_, h6⟩
    · simp [addPipe, h1]
    · intro id hid
      simp only [getPipeIds, addPipe, List.map_append, List.mem_append, List.map_cons,
        List.map_nil, List.mem_singleton] at hid
      rcases hid with hid | hid
      · have := h3 id hid
        push_cast; omega
      · push_cast; omega
    · simp only [getPipeIds, addPipe, List.map_append, List.map_cons, List.map_nil]
      refine List.Nodup.append h5 (List.nodup_singleton _) ?_
      rw [List.disjoint_singleton]
      intro hmem
      have := h3 _ hmem
      omega
  | addStation name total active cls =>
    refine ⟨_, rfl, ?_⟩
    simp only [countAddPipe, countAddStation, Nat.add_zero]
    refine ⟨h1, ?_, h3, ?_, h5, ?_⟩
    · simp [addStation, h2]
    · intro id hid
      simp only [getStationIds, addStation, List.map_append, List.mem_append, List.map_cons,
        List.map_nil, List.mem_singleton] at hid
      rcases hid with hid | hid
      · have := h4 id hid
        push_cast; omega
      · push_cast; omega
    · simp only [getStationIds, addStation, List.map_append, List.map_cons, List.map_nil]
      refine List.Nodup.append h6 (List.nodup_singleton _) ?_
      rw [List.disjoint_singleton]
      intro hmem
      have := h4 _ hmem
      omega
  | editPipe id e =>
    refine ⟨_, rfl, ?_⟩
    obtain ⟨e1, e2, e3, e4⟩ := getPipeIds_editPipe s id e
    simp only [countAddPipe, countAddStation, Nat.add_zero]
    refine ⟨by rw [e3, h1], by rw [e4, h2], by rw [e1]; exact h3, ?_, by rw [e1]; exact h5, ?_⟩
    · simpa [getStationIds, e2] using h4
    · simpa [getStationIds, e2] using h6
  | editStation id e =>
    refine ⟨_, rfl, ?_⟩
    obtain ⟨e1, e2, e3, e4⟩ := getStationIds_editStation s id e
    simp only [countAddPipe, countAddStation, Nat.add_zero]
    refine ⟨by rw [e3, h1], by rw [e4, h2], ?_, by rw [e1]; exact h4, ?_, by rw [e1]; exact h6⟩
    · simpa [getPipeIds, e2] using h3
    · simpa [getPipeIds, e2] using h5
  | deleteObjects isPipe input =>
    simp only [countAddPipe, countAddStation, Nat.add_zero]
    cases isPipe with
    | true =>
      refine ⟨_, deleteObjects_pipes s input h5, h1, h2, ?_, h4, ?_, h6⟩
      · intro id hid
        apply h3
        simp only [getPipeIds, List.mem_map] at hid ⊢
        obtain ⟨p, hp, rfl⟩ := hid
        exact ⟨p, List.mem_of_mem_filter hp, rfl⟩
      · exact h5.sublist ((List.filter_sublist _).map _)
    | false =>
      refine ⟨_, deleteObjects_stations s input h6, h1, h2, h3, ?_, h5, ?_⟩
      · intro id hid
        apply h4
        simp only [getStationIds, List.mem_map] at hid ⊢
        obtain ⟨p, hp, rfl⟩ := hid
        exact ⟨p, List.mem_of_mem_filter hp, rfl⟩
      · exact h6.sublist ((List.filter_sublist _).map _)

theorem countAddPipe_cons (op : Op) (ops : List Op) :
    countAddPipe (op :: ops) = countAddPipe [op] + countAddPipe ops := by
  cases op <;> simp [countAddPipe]
  omega

theorem countAddStation_cons (op : Op) (ops : List Op) :
    countAddStation (op :: ops) = countAddStation [op] + countAddStation ops := by
  cases op <;> simp [countAddStation]
  omega

theorem runOps_idsUpTo (ops : List Op) (s : PipelineSystem) (np ns : Nat)
    (h : IdsUpTo s np ns) :
    ∃ s1, runOps s ops = some s1 ∧
      IdsUpTo s1 (np + countAddPipe ops) (ns + countAddStation ops) := by
  induction ops generalizing s np ns with
  | nil => exact ⟨s, rfl, by simpa [countAddPipe, countAddStation] using h⟩
  | cons op ops ih =>
    obtain ⟨s1, hs1, hinv⟩ := applyOp_idsUpTo s op np ns h
    obtain ⟨s2, hs2, hinv2⟩ := ih s1 _ _ hinv
    refine ⟨s2, by simp [runOps, hs1, hs2], ?_⟩
    rw [countAddPipe_cons, countAddStation_cons, ← Nat.add_assoc, ← Nat.add_assoc]
    exact hinv2

/-- C3. From the empty store (both counters 1), every sequence `ops` of add,
edit and delete actions runs to a store `s` in which: the next `addPipe`,
which is call number `countAddPipe ops + 1`, creates the pipe with exactly that
id, and likewise for `addStation`, whatever was deleted before; every id in use
is at least 1 and at most the number of adds made, hence below the id given
next (no id is reused); and the ids of each collection are pairwise distinct. -/
theorem C3_sequential_ids (ops : List Op) :
    ∃ s, runOps PipelineSystem.empty ops = some s ∧
      (∀ name length diameter, (addPipe s name length diameter).pipes =
        s.pipes ++ [{ id := (countAddPipe ops : Int) + 1, name := name, length := length,
                      diameter := diameter, underRepair := false }]) ∧
      (∀ name total active cls, (addStation s name total active cls).stations =
        s.stations ++ [{ id := (countAddStation ops : Int) + 1, name := name,
                         totalWorkshops := total, activeWorkshops := active,
                         stationClass := cls }]) ∧
      (∀ id ∈ getPipeIds s, 1 ≤ id ∧ id ≤ (countAddPipe ops : Int)) ∧
      (∀ id ∈ getStationIds s, 1 ≤ id ∧ id ≤ (countAddStation ops : Int)) ∧
      (getPipeIds s).Nodup ∧ (getStationIds s).Nodup := by
  have h0 : IdsUpTo PipelineSystem.empty 0 0 := by
    refine ⟨rfl, rfl, ?_, ?_, ?_, ?_⟩ <;> simp [PipelineSystem.empty, getPipeIds, getStationIds]
  obtain ⟨s, hs, h1, h2, h3, h4, h5, h6⟩ := runOps_idsUpTo ops _ 0 0 h0
  simp only [Nat.zero_add] at h1 h2 h3 h4
  refine ⟨s, hs, ?_, ?_, h3, h4, h5, h6⟩
  · intro name length diameter
    simp [addPipe, h1]
  · intro name total active cls
    simp [addStation, h2]


/-! ### Wildcard -/

/-- C9, as stated, fails: "All" is a case variant of "all", and with two valid
ids it selects nothing instead of the positions 0 and 1. -/
theorem C9_wildcard_counterexample :
    "All".toList ∈ caseVariants "all".toList ∧
    parseIndicesFromInput "All".toList [7, 8] = [] ∧
    parseIndicesFromInput "All".toList [7, 8] ≠ List.range [7, 8].length := by
  decide

/-- C9, amended. Of the case variants of "all", exactly the two spellings
"all" and "ALL" are wildcards: for them `parseIndicesFromInput` returns every
position `0, ..., n-1` of the `n` valid ids; every other variant ("All", "aLl",
...) is read as an id list without a number and selects no position. -/
theorem C9_wildcard_exact_spellings (validIds : List Int) :
    parseIndicesFromInput "all".toList validIds = List.range validIds.length ∧
    parseIndicesFromInput "ALL".toList validIds = List.range validIds.length ∧
    (∀ input ∈ caseVariants "all".toList, input ≠ "all".toList → input ≠ "ALL".toList →
      parseIndicesFromInput input validIds = []) := by
  refine ⟨?_, ?_, ?_⟩
  · simp [parseIndicesFromInput, isWildcard]
  · simp [parseIndicesFromInput, isWildcard]
  · intro input hin h1 h2
    have hcases : input = "all".toList ∨ input = "All".toList ∨ input = "aLl".toList ∨
        input = "ALl".toList ∨ input = "alL".toList ∨ input = "AlL".toList ∨
        input = "aLL".toList ∨ input = "ALL".toList := by
      have hv : caseVariants "all".toList =
          ["all".toList, "All".toList, "aLl".toList, "ALl".toList, "alL".toList,
           "AlL".toList, "aLL".toList, "ALL".toList] := by decide
      rw [hv] at hin
      simpa using hin
    have hnone : ∀ inp : Str, isWildcard inp = false → splitTokens [] inp = [inp] →
        stoi inp = none → parseIndicesFromInput inp validIds = [] := by
      intro inp hw ht hs
      simp [parseIndicesFromInput, hw, tokenIndices, ht, hs, unique]
    rcases hcases with h | h | h | h | h | h | h | h
    · exact absurd h h1
    · subst h; exact hnone _ (by decide) (by decide) (by decide)
    · subst h; exact hnone _ (by decide) (by decide) (by decide)
    · subst h; exact hnone _ (by decide) (by decide) (by decide)
    · subst h; exact hnone _ (by decide) (by decide) (by decide)
    · subst h; exact hnone _ (by decide) (by decide) (by decide)
    · subst h; exact hnone _ (by decide) (by decide) (by decide)
    · exact absurd h h2

/-! ### Search by inactive percentage -/

theorem percent_full (st : CompressorStation) (ha : st.activeWorkshops = st.totalWorkshops) :
    calculateInactivePercent st = 0 := by
  unfold calculateInactivePercent
  split_ifs <;> simp [ha]

/-- C10. For a station at position `i` with `activeWorkshops = totalWorkshops`
(in particular with `totalWorkshops ≥ 1`, which the proof does not need), the
search with target 0 returns `i` for
the comparison 3 (equality up to 0.01) and does not return it for the
comparison 1 (greater than).  The metric compared is that of
`calculateInactivePercent`: `100 * (total - active) / total` for a positive
total and 0 for the total 0, and the search returns the positions whose metric
passes the comparison. -/
theorem C10_inactive_percent_target_zero (s : PipelineSystem) (i : Nat)
    (st : CompressorStation) (hst : s.stations[i]? = some st)
    (ha : st.activeWorkshops = st.totalWorkshops) :
    i ∈ findStationsByInactivePercent s 0 3 ∧
    i ∉ findStationsByInactivePercent s 0 1 ∧
    (∀ x : CompressorStation, 0 < x.totalWorkshops → calculateInactivePercent x =
      100 * ((x.totalWorkshops : ℚ) - (x.activeWorkshops : ℚ)) / (x.totalWorkshops : ℚ)) ∧
    (∀ x : CompressorStation, x.totalWorkshops = 0 → calculateInactivePercent x = 0) ∧
    (∀ (target : ℚ) (cmp : Int) (j : Nat), j ∈ findStationsByInactivePercent s target cmp ↔
      ∃ x, s.stations[j]? = some x ∧
        percentMatch (calculateInactivePercent x) target cmp = true) := by
  have hmem : ∀ (target : ℚ) (cmp : Int) (j : Nat),
      j ∈ findStationsByInactivePercent s target cmp ↔
      ∃ x, s.stations[j]? = some x ∧
        percentMatch (calculateInactivePercent x) target cmp = true := by
    intro target cmp j
    unfold findStationsByInactivePercent
    rw [indicesWhere_mem]
    simp
  refine ⟨?_, ?_, ?_, ?_, hmem⟩
  · rw [hmem]
    refine ⟨st, hst, ?_⟩
    rw [percent_full st ha]
    simp [percentMatch]
  · rw [hmem]
    rintro ⟨x, hx, hm⟩
    rw [hst] at hx
    cases hx
    rw [percent_full st ha] at hm
    simp [percentMatch] at hm
  · intro x hx
    unfold calculateInactivePercent
    rw [if_pos hx]
    push_cast
    rfl
  · intro x hx
    unfold calculateInactivePercent
    rw [if_neg (by omega)]

/-- C10 on the station CS1 after two workshops were started (5 of 5 active). -/
theorem C10_inactive_percent_target_zero_witness :
    cs1Full.stations[0]? = some cs1FullStation ∧
    (1 : Int) ≤ cs1FullStation.totalWorkshops ∧
    cs1FullStation.activeWorkshops = cs1FullStation.totalWorkshops ∧
    0 ∈ findStationsByInactivePercent cs1Full 0 3 ∧
    0 ∉ findStationsByInactivePercent cs1Full 0 1 :=
  ⟨by decide, by decide, by decide,
    (C10_inactive_percent_target_zero cs1Full 0 cs1FullStation
      (by decide) (by decide)).1,
    (C10_inactive_percent_target_zero cs1Full 0 cs1FullStation
      (by decide) (by decide)).2.1⟩


/-! ### Stream operations: a failed stream stays failed and assigns nothing -/

theorem sentry_failed (b : Bool) (f : IStream) (h : f.failbit = true) :
    sentry b f = (f, false) := by
  cases f
  simp_all [sentry]

theorem sentry_false (b : Bool) (f f1 : IStream) (h : sentry b f = (f1, false)) :
    f1.failbit = true := by
  unfold sentry at h
  split_ifs at h
  · cases h; rfl
  · cases h
  · split at h
    · cases h; rfl
    · cases h

theorem scanSign_suffix (cs : Str) : (scanSign cs).2 <:+ cs := by
  unfold scanSign
  split
  · exact List.suffix_cons _ _
  · exact List.suffix_cons _ _
  · exact List.suffix_refl _

theorem scanInteger_suffix (cs : Str) : (scanInteger cs).2.2 <:+ cs := by
  unfold scanInteger
  exact (List.dropWhile_suffix _).trans (scanSign_suffix cs)

theorem readString_failed (f : IStream) (old : Str) (h : f.failbit = true) :
    readString f old = (f, old) := by
  unfold readString
  rw [sentry_failed false f h]

theorem readInt_failed (f : IStream) (old : Int) (h : f.failbit = true) :
    readInt f old = (f, old) := by
  unfold readInt
  rw [sentry_failed false f h]

theorem readSize_failed (f : IStream) (old : Nat) (h : f.failbit = true) :
    readSize f old = (f, old) := by
  unfold readSize
  rw [sentry_failed false f h]

theorem readBool_failed (f : IStream) (old : Bool) (h : f.failbit = true) :
    readBool f old = (f, old) := by
  unfold readBool
  rw [sentry_failed false f h]

theorem readDouble_failed (f : IStream) (old : Double) (h : f.failbit = true) :
    readDouble f old = (f, old) := by
  unfold readDouble
  rw [sentry_failed false f h]

theorem getline_failed (f : IStream) (old : Str) (h : f.failbit = true) :
    getline f old = (f, old) := by
  unfold getline
  rw [sentry_failed true f h]

theorem ignore_failed (f : IStream) (h : f.failbit = true) : ignore f = f := by
  unfold ignore
  rw [sentry_failed true f h]


theorem sentry_suffix (b : Bool) (f : IStream) : (sentry b f).1.rest <:+ f.rest := by
  unfold sentry
  split_ifs
  · exact List.suffix_refl _
  · exact List.suffix_refl _
  · split
    · exact List.nil_suffix
    · rename_i c r hc
      show c :: r <:+ f.rest
      rw [← hc]
      exact List.dropWhile_suffix _

theorem readString_indep (f : IStream) (old old1 : Str) :
    (readString f old).1 = (readString f old1).1 ∧
      ((readString f old).1.failbit = false → (readString f old).2 = (readString f old1).2) := by
  unfold readString
  cases hs : sentry false f with
  | mk f1 ok =>
    cases ok with
    | false =>
      refine ⟨rfl, fun h => ?_⟩
      rw [sentry_false _ _ _ hs] at h
      cases h
    | true => exact ⟨rfl, fun _ => rfl⟩

theorem readInt_indep (f : IStream) (old old1 : Int) :
    (readInt f old).1 = (readInt f old1).1 ∧
      ((readInt f old).1.failbit = false → (readInt f old).2 = (readInt f old1).2) := by
  unfold readInt
  cases hs : sentry false f with
  | mk f1 ok =>
    cases ok with
    | false =>
      refine ⟨rfl, fun h => ?_⟩
      rw [sentry_false _ _ _ hs] at h
      cases h
    | true => exact ⟨rfl, fun _ => rfl⟩

theorem readSize_indep (f : IStream) (old old1 : Nat) :
    (readSize f old).1 = (readSize f old1).1 ∧
      ((readSize f old).1.failbit = false → (readSize f old).2 = (readSize f old1).2) := by
  unfold readSize
  cases hs : sentry false f with
  | mk f1 ok =>
    cases ok with
    | false =>
      refine ⟨rfl, fun h => ?_⟩
      rw [sentry_false _ _ _ hs] at h
      cases h
    | true => exact ⟨rfl, fun _ => rfl⟩

theorem readBool_indep (f : IStream) (old old1 : Bool) :
    (readBool f old).1 = (readBool f old1).1 ∧
      ((readBool f old).1.failbit = false → (readBool f old).2 = (readBool f old1).2) := by
  unfold readBool
  cases hs : sentry false f with
  | mk f1 ok =>
    cases ok with
    | false =>
      refine ⟨rfl, fun h => ?_⟩
      rw [sentry_false _ _ _ hs] at h
      cases h
    | true => exact ⟨rfl, fun _ => rfl⟩

theorem readDouble_indep (f : IStream) (old old1 : Double) :
    (readDouble f old).1 = (readDouble f old1).1 ∧
      ((readDouble f old).1.failbit = false →
        (readDouble f old).2 = (readDouble f old1).2) := by
  unfold readDouble
  cases hs : sentry false f with
  | mk f1 ok =>
    cases ok with
    | false =>
      refine ⟨rfl, fun h => ?_⟩
      rw [sentry_false _ _ _ hs] at h
      cases h
    | true => exact ⟨rfl, fun _ => rfl⟩

theorem getline_indep (f : IStream) (old old1 : Str) :
    (getline f old).1 = (getline f old1).1 ∧
      ((getline f old).1.failbit = false → (getline f old).2 = (getline f old1).2) := by
  unfold getline
  cases hs : sentry true f with
  | mk f1 ok =>
    cases ok with
    | false =>
      refine ⟨rfl, fun h => ?_⟩
      rw [sentry_false _ _ _ hs] at h
      cases h
    | true => exact ⟨rfl, fun _ => rfl⟩

theorem readInt_suffix (f : IStream) (old : Int) : (readInt f old).1.rest <:+ f.rest := by
  have h0 := sentry_suffix false f
  unfold readInt
  cases hs : sentry false f with
  | mk f1 ok =>
    rw [hs] at h0
    cases ok with
    | false => exact h0
    | true =>
      have h1 := (scanInteger_suffix f1.rest).trans h0
      dsimp only
      split_ifs <;> exact h1

theorem getline_suffix (f : IStream) (old : Str) : (getline f old).1.rest <:+ f.rest := by
  have h0 := sentry_suffix true f
  unfold getline
  cases hs : sentry true f with
  | mk f1 ok =>
    rw [hs] at h0
    cases ok with
    | false => exact h0
    | true =>
      dsimp only
      split
      · exact List.nil_suffix
      · rename_i c r hc
        have : r <:+ f1.rest := by
          have h2 := List.dropWhile_suffix (fun x => x != '\n') (l := f1.rest)
          rw [hc] at h2
          exact (List.suffix_cons _ _).trans h2
        exact this.trans h0

theorem ignore_suffix (f : IStream) : (ignore f).rest <:+ f.rest := by
  have h0 := sentry_suffix true f
  unfold ignore
  cases hs : sentry true f with
  | mk f1 ok =>
    rw [hs] at h0
    cases ok with
    | false => exact h0
    | true =>
      dsimp only
      split
      · rename_i hr
        show f1.rest <:+ f.rest
        exact h0
      · rename_i c r hc
        show r <:+ f.rest
        have : r <:+ f1.rest := by rw [hc]; exact List.suffix_cons _ _
        exact this.trans h0


theorem failbit_of_readString (f : IStream) (old : Str)
    (h : (readString f old).1.failbit = false) : f.failbit = false := by
  by_contra hf
  rw [readString_failed f old (by simpa using hf)] at h
  exact hf h

theorem failbit_of_readInt (f : IStream) (old : Int)
    (h : (readInt f old).1.failbit = false) : f.failbit = false := by
  by_contra hf
  rw [readInt_failed f old (by simpa using hf)] at h
  exact hf h

theorem failbit_of_readSize (f : IStream) (old : Nat)
    (h : (readSize f old).1.failbit = false) : f.failbit = false := by
  by_contra hf
  rw [readSize_failed f old (by simpa using hf)] at h
  exact hf h

theorem failbit_of_readBool (f : IStream) (old : Bool)
    (h : (readBool f old).1.failbit = false) : f.failbit = false := by
  by_contra hf
  rw [readBool_failed f old (by simpa using hf)] at h
  exact hf h

theorem failbit_of_readDouble (f : IStream) (old : Double)
    (h : (readDouble f old).1.failbit = false) : f.failbit = false := by
  by_contra hf
  rw [readDouble_failed f old (by simpa using hf)] at h
  exact hf h

theorem failbit_of_getline (f : IStream) (old : Str)
    (h : (getline f old).1.failbit = false) : f.failbit = false := by
  by_contra hf
  rw [getline_failed f old (by simpa using hf)] at h
  exact hf h

theorem failbit_of_ignore (f : IStream) (h : (ignore f).failbit = false) :
    f.failbit = false := by
  by_contra hf
  rw [ignore_failed f (by simpa using hf)] at h
  exact hf h

/-! ### The two loops of `loadData` -/

theorem readPipe_eq (f : IStream) (p0 : Pipe) :
    readPipe f p0 =
      (ignore (readBool (readInt (readDouble (getline (ignore (readInt f p0.id).1)
            p0.name).1 p0.length).1 p0.diameter).1 p0.underRepair).1,
        { id := (readInt f p0.id).2,
          name := (getline (ignore (readInt f p0.id).1) p0.name).2,
          length := (readDouble (getline (ignore (readInt f p0.id).1) p0.name).1 p0.length).2,
          diameter := (readInt (readDouble (getline (ignore (readInt f p0.id).1)
            p0.name).1 p0.length).1 p0.diameter).2,
          underRepair := (readBool (readInt (readDouble (getline (ignore (readInt f p0.id).1)
            p0.name).1 p0.length).1 p0.diameter).1 p0.underRepair).2 }) := rfl

theorem readStation_eq (f : IStream) (s0 : CompressorStation) :
    readStation f s0 =
      (ignore (readInt (readInt (readInt (getline (ignore (readInt f s0.id).1)
            s0.name).1 s0.totalWorkshops).1 s0.activeWorkshops).1 s0.stationClass).1,
        { id := (readInt f s0.id).2,
          name := (getline (ignore (readInt f s0.id).1) s0.name).2,
          totalWorkshops :=
            (readInt (getline (ignore (readInt f s0.id).1) s0.name).1 s0.totalWorkshops).2,
          activeWorkshops :=
            if (readInt (readInt (getline (ignore (readInt f s0.id).1) s0.name).1
                  s0.totalWorkshops).1 s0.activeWorkshops).2 >
                (readInt (getline (ignore (readInt f s0.id).1) s0.name).1 s0.totalWorkshops).2
            then (readInt (getline (ignore (readInt f s0.id).1) s0.name).1 s0.totalWorkshops).2
            else (readInt (readInt (getline (ignore (readInt f s0.id).1) s0.name).1
                  s0.totalWorkshops).1 s0.activeWorkshops).2,
          stationClass := (readInt (readInt (readInt (getline (ignore (readInt f s0.id).1)
            s0.name).1 s0.totalWorkshops).1 s0.activeWorkshops).1 s0.stationClass).2 }) := rfl

theorem readPipe_failed (f : IStream) (p0 : Pipe) (h : f.failbit = true) :
    readPipe f p0 = (f, p0) := by
  rw [readPipe_eq]
  simp only [readInt_failed f _ h, ignore_failed f h, getline_failed f _ h,
    readDouble_failed f _ h, readBool_failed f _ h]

theorem readStation_failed (f : IStream) (s0 : CompressorStation) (h : f.failbit = true) :
    (readStation f s0).1 = f := by
  rw [readStation_eq]
  simp only [readInt_failed f _ h, ignore_failed f h, getline_failed f _ h]

theorem readPipe_indep (f : IStream) (p0 p1 : Pipe) :
    (readPipe f p0).1 = (readPipe f p1).1 ∧
      ((readPipe f p0).1.failbit = false → (readPipe f p0).2 = (readPipe f p1).2) := by
  have e1 := readInt_indep f p0.id p1.id
  have e2 := getline_indep (ignore (readInt f p0.id).1) p0.name p1.name
  have e3 := readDouble_indep (getline (ignore (readInt f p0.id).1) p0.name).1
    p0.length p1.length
  have e4 := readInt_indep (readDouble (getline (ignore (readInt f p0.id).1) p0.name).1
    p0.length).1 p0.diameter p1.diameter
  have e5 := readBool_indep (readInt (readDouble (getline (ignore (readInt f p0.id).1)
    p0.name).1 p0.length).1 p0.diameter).1 p0.underRepair p1.underRepair
  have key : (readPipe f p0).1 = (readPipe f p1).1 := by
    rw [readPipe_eq, readPipe_eq]
    simp only
    rw [← e1.1, ← e2.1, ← e3.1, ← e4.1, ← e5.1]
  refine ⟨key, fun h => ?_⟩
  rw [readPipe_eq] at h
  simp only at h
  have g6 := failbit_of_ignore _ h
  have g5 := failbit_of_readBool _ _ g6
  have g4 := failbit_of_readInt _ _ g5
  have g3 := failbit_of_readDouble _ _ g4
  have g1 := failbit_of_ignore _ (failbit_of_getline _ _ g3)
  rw [readPipe_eq, readPipe_eq]
  simp only
  rw [← e1.1, ← e2.1, ← e3.1, ← e4.1, ← e1.2 g1, ← e2.2 g3, ← e3.2 g4, ← e4.2 g5, ← e5.2 g6]


theorem readStation_suffix (f : IStream) (s0 : CompressorStation) :
    (readStation f s0).1.rest <:+ f.rest := by
  rw [readStation_eq]
  exact (ignore_suffix _).trans ((readInt_suffix _ _).trans ((readInt_suffix _ _).trans
    ((readInt_suffix _ _).trans ((getline_suffix _ _).trans
      ((ignore_suffix _).trans (readInt_suffix _ _))))))

theorem readPipes_failed (u : Uninit) (n i : Nat) (f : IStream) (acc : List Pipe)
    (h : f.failbit = true) : (readPipes u n i f acc).1 = f := by
  induction n generalizing i acc with
  | zero => rfl
  | succ n ih =>
    unfold readPipes
    rw [readPipe_failed f _ h]
    exact ih _ _

theorem readPipes_indep (u u1 : Uninit) (n i : Nat) (f : IStream) (acc : List Pipe)
    (h : (readPipes u n i f acc).1.failbit = false) :
    readPipes u1 n i f acc = readPipes u n i f acc := by
  induction n generalizing i f acc with
  | zero => rfl
  | succ n ih =>
    unfold readPipes at h ⊢
    have hf1 : (readPipe f { u.pipe i with name := [] }).1.failbit = false := by
      by_contra hc
      rw [readPipes_failed u n _ _ _ (by simpa using hc)] at h
      exact hc h
    have e := readPipe_indep f { u.pipe i with name := [] } { u1.pipe i with name := [] }
    have e1 : readPipe f { u1.pipe i with name := [] } =
        readPipe f { u.pipe i with name := [] } := by
      apply Prod.ext
      · exact e.1.symm
      · exact (e.2 hf1).symm
    rw [e1]
    exact ih _ _ _ h


/-! ### `loadData`: markers and independence of the prior state -/

theorem loadData_loaded (text : Str) (u : Uninit) (s : PipelineSystem)
    (h : (loadData text u s).2 = .loaded) :
    (readPipesMarker text u s).2.1 = "PIPES".toList ∧
    (readStationsMarker u (readPipesMarker text u s).1 (readPipesMarker text u s).2.1
      (readPipesMarker text u s).2.2).2.1 = "STATIONS".toList := by
  unfold loadData at h
  dsimp only at h
  split_ifs at h with h1 h2
  · exact ⟨not_not.mp h1, not_not.mp h2⟩

theorem readCounters_indep (text : Str) (s1 s2 : PipelineSystem)
    (h : (readCounters text s1).1.failbit = false) :
    readCounters text s2 = readCounters text s1 := by
  unfold readCounters at h ⊢
  dsimp only at h ⊢
  have e1 := readInt_indep
    (readString { rest := text, eofbit := false, failbit := false } []).1
    s1.nextPipeId s2.nextPipeId
  split_ifs at h ⊢ with hh
  · rw [e1.1]
  · have e2 := readInt_indep
      (readString (readInt (readString { rest := text, eofbit := false, failbit := false }
        []).1 s1.nextPipeId).1
        (readString { rest := text, eofbit := false, failbit := false } []).2).1
      s1.nextStationId s2.nextStationId
    have g1 := failbit_of_readString _ _ (failbit_of_readInt _ _ h)
    rw [← e1.1, ← e1.2 g1, ← e2.1, ← e2.2 h]

theorem readStations_congr (u1 u2 : Uninit) (hu : u1.station = u2.station) (n i : Nat)
    (f : IStream) (acc : List CompressorStation) :
    readStations u2 n i f acc = readStations u1 n i f acc := by
  induction n generalizing i f acc with
  | zero => rfl
  | succ n ih =>
    unfold readStations
    rw [hu]
    exact ih _ _ _

theorem readStation_indep (f : IStream) (p0 p1 : CompressorStation) :
    (readStation f p0).1 = (readStation f p1).1 ∧
      ((readStation f p0).1.failbit = false → (readStation f p0).2 = (readStation f p1).2) := by
  have e1 := readInt_indep f p0.id p1.id
  have e2 := getline_indep (ignore (readInt f p0.id).1) p0.name p1.name
  have e3 := readInt_indep (getline (ignore (readInt f p0.id).1) p0.name).1
    p0.totalWorkshops p1.totalWorkshops
  have e4 := readInt_indep (readInt (getline (ignore (readInt f p0.id).1) p0.name).1
    p0.totalWorkshops).1 p0.activeWorkshops p1.activeWorkshops
  have e5 := readInt_indep (readInt (readInt (getline (ignore (readInt f p0.id).1)
    p0.name).1 p0.totalWorkshops).1 p0.activeWorkshops).1 p0.stationClass p1.stationClass
  have key : (readStation f p0).1 = (readStation f p1).1 := by
    rw [readStation_eq, readStation_eq]
    simp only
    rw [← e1.1, ← e2.1, ← e3.1, ← e4.1, ← e5.1]
  refine ⟨key, fun h => ?_⟩
  rw [readStation_eq] at h
  simp only at h
  have g6 := failbit_of_ignore _ h
  have g5 := failbit_of_readInt _ _ g6
  have g4 := failbit_of_readInt _ _ g5
  have g3 := failbit_of_readInt _ _ g4
  have g1 := failbit_of_ignore _ (failbit_of_getline _ _ g3)
  rw [readStation_eq, readStation_eq]
  simp only
  rw [← e1.1, ← e2.1, ← e3.1, ← e4.1, ← e1.2 g1, ← e2.2 g3, ← e3.2 g4, ← e4.2 g5, ← e5.2 g6]

theorem readStations_failed (u : Uninit) (n i : Nat) (f : IStream)
    (acc : List CompressorStation) (h : f.failbit = true) :
    (readStations u n i f acc).1 = f := by
  induction n generalizing i acc with
  | zero => rfl
  | succ n ih =>
    unfold readStations
    dsimp only
    rw [readStation_failed f _ h]
    exact ih _ _

theorem readStations_indep (u u1 : Uninit) (n i : Nat) (f : IStream)
    (acc : List CompressorStation) (h : (readStations u n i f acc).1.failbit = false) :
    readStations u1 n i f acc = readStations u n i f acc := by
  induction n generalizing i f acc with
  | zero => rfl
  | succ n ih =>
    unfold readStations at h ⊢
    have hf1 : (readStation f { u.station i with name := [] }).1.failbit = false := by
      by_contra hc
      rw [readStations_failed u n _ _ _ (by simpa using hc)] at h
      exact hc h
    have e := readStation_indep f { u.station i with name := [] }
      { u1.station i with name := [] }
    have e1 : readStation f { u1.station i with name := [] } =
        readStation f { u.station i with name := [] } := by
      apply Prod.ext
      · exact e.1.symm
      · exact (e.2 hf1).symm
    rw [e1]
    exact ih _ _ _ h

theorem readStations_length (u : Uninit) (n i : Nat) (f : IStream)
    (acc : List CompressorStation) :
    (readStations u n i f acc).2.length = acc.length + n := by
  induction n generalizing i f acc with
  | zero => rfl
  | succ n ih =>
    unfold readStations
    rw [ih]
    simp only [List.length_append, List.length_singleton]
    omega

theorem loadData_form (text : Str) (u : Uninit) (s : PipelineSystem)
    (hP : (readPipesMarker text u s).2.1 = "PIPES".toList)
    (hS : (readStationsMarker u (readPipesMarker text u s).1 (readPipesMarker text u s).2.1
      (readPipesMarker text u s).2.2).2.1 = "STATIONS".toList) :
    loadData text u s =
      ({ pipes := (readStationsMarker u (readPipesMarker text u s).1
            (readPipesMarker text u s).2.1 (readPipesMarker text u s).2.2).2.2.2,
         stations := (readStations u
            (readStationsMarker u (readPipesMarker text u s).1
              (readPipesMarker text u s).2.1 (readPipesMarker text u s).2.2).2.2.1 0
            (ignore (readStationsMarker u (readPipesMarker text u s).1
              (readPipesMarker text u s).2.1 (readPipesMarker text u s).2.2).1) []).2,
         nextPipeId := (readCounters text s).2.2.1,
         nextStationId := (readCounters text s).2.2.2 }, .loaded) := by
  unfold loadData
  dsimp only
  rw [if_neg (not_not.mpr hP), if_neg (not_not.mpr hS)]

theorem loadStream_form (text : Str) (u : Uninit) (s : PipelineSystem)
    (hP : (readPipesMarker text u s).2.1 = "PIPES".toList)
    (hS : (readStationsMarker u (readPipesMarker text u s).1 (readPipesMarker text u s).2.1
      (readPipesMarker text u s).2.2).2.1 = "STATIONS".toList) :
    loadStream text u s =
      (readStations u
        (readStationsMarker u (readPipesMarker text u s).1
          (readPipesMarker text u s).2.1 (readPipesMarker text u s).2.2).2.2.1 0
        (ignore (readStationsMarker u (readPipesMarker text u s).1
          (readPipesMarker text u s).2.1 (readPipesMarker text u s).2.2).1) []).1 := by
  unfold loadStream
  dsimp only
  rw [if_neg (not_not.mpr hP), if_neg (not_not.mpr hS)]

/-- C7, as stated, fails on a file that ends before the stations it announces:
`truncatedFile` is accepted, one station is read and a second one is pushed
from the local `station`, whose numeric fields were never assigned.  With
other indeterminate values the load of the same text gives another store. -/
theorem C7_truncated_file_counterexample :
    (loadData truncatedFile Uninit.zero threePipes).2 = .loaded ∧
    (loadData truncatedFile Uninit.seven PipelineSystem.empty).2 = .loaded ∧
    (loadData truncatedFile Uninit.zero threePipes).1.stations.map (·.id) = [1, 0] ∧
    (loadData truncatedFile Uninit.seven PipelineSystem.empty).1.stations.map (·.id) = [1, 7] ∧
    (loadData truncatedFile Uninit.zero threePipes).1 ≠
      (loadData truncatedFile Uninit.seven PipelineSystem.empty).1 := by
  decide

/-- C7, amended. A load that is accepted replaces the state: if `loadData`
accepts the text on the store `s1`, it accepts it on every store `s2`, and
both results have the same pipes, the same two counters and the same number of
stations, whatever the indeterminate values are.  The results are the same
store when the stream has not failed by the end of the load (the file holds
all the stations it announces), and also when the indeterminate values of the
local `station` are the same in both runs.  Nothing of a prior store is in
the result: it is the result of the load on the empty store. -/
theorem C7_load_replaces_state (text : Str) (u1 u2 : Uninit) (s1 s2 : PipelineSystem)
    (h : (loadData text u1 s1).2 = .loaded) :
    (loadData text u2 s2).2 = .loaded ∧
    (loadData text u2 s2).1.pipes = (loadData text u1 s1).1.pipes ∧
    (loadData text u2 s2).1.nextPipeId = (loadData text u1 s1).1.nextPipeId ∧
    (loadData text u2 s2).1.nextStationId = (loadData text u1 s1).1.nextStationId ∧
    (loadData text u2 s2).1.stations.length = (loadData text u1 s1).1.stations.length ∧
    ((loadStream text u1 s1).failbit = false →
      loadData text u2 s2 = loadData text u1 s1) ∧
    (u1.station = u2.station → loadData text u2 s2 = loadData text u1 s1) ∧
    (loadData text u1 s1).1 = (loadData text u1 PipelineSystem.empty).1 := by
  obtain ⟨hP, hS⟩ := loadData_loaded text u1 s1 h
  -- the stream had not failed when the word `STATIONS` was read
  have g0 : (readPipes u1 (readPipesMarker text u1 s1).2.2 0
      (ignore (readPipesMarker text u1 s1).1) []).1.failbit = false := by
    by_contra hc
    have hc1 : (readPipes u1 (readPipesMarker text u1 s1).2.2 0
      (ignore (readPipesMarker text u1 s1).1) []).1.failbit = true := by simpa using hc
    unfold readStationsMarker at hS
    dsimp only at hS
    rw [readString_failed _ _ hc1, hP] at hS
    have hS1 : "PIPES".toList = "STATIONS".toList := hS
    exact absurd hS1 (by decide)
  have g1 : (ignore (readPipesMarker text u1 s1).1).failbit = false := by
    by_contra hc
    rw [readPipes_failed u1 _ _ _ _ (by simpa using hc)] at g0
    exact hc g0
  have g2 : (readPipesMarker text u1 s1).1.failbit = false := failbit_of_ignore _ g1
  have g3 : (readCounters text s1).1.failbit = false := by
    unfold readPipesMarker at g2
    exact failbit_of_readString _ _ (failbit_of_readSize _ _ g2)
  -- what was read up to the `STATIONS` marker does not depend on `u` and `s`
  have eC : ∀ s, readCounters text s = readCounters text s1 :=
    fun s => readCounters_indep text s1 s g3
  have eM : ∀ u s, readPipesMarker text u s = readPipesMarker text u1 s1 := by
    intro u s
    unfold readPipesMarker at g2 ⊢
    dsimp only at g2 ⊢
    rw [eC s]
    have e := readSize_indep
      (readString (readCounters text s1).1 (readCounters text s1).2.1).1 u1.count u.count
    rw [← e.1, ← e.2 g2]
  have eS : ∀ u, readStationsMarker u (readPipesMarker text u1 s1).1
      (readPipesMarker text u1 s1).2.1 (readPipesMarker text u1 s1).2.2 =
      readStationsMarker u1 (readPipesMarker text u1 s1).1
        (readPipesMarker text u1 s1).2.1 (readPipesMarker text u1 s1).2.2 := by
    intro u
    unfold readStationsMarker
    dsimp only
    rw [readPipes_indep u1 u _ _ _ _ g0]
  -- hence every load of the text differs from the first in the stations only
  have hP2 : ∀ u s, (readPipesMarker text u s).2.1 = "PIPES".toList := by
    intro u s; rw [eM u s]; exact hP
  have hS2 : ∀ u s, (readStationsMarker u (readPipesMarker text u s).1
      (readPipesMarker text u s).2.1 (readPipesMarker text u s).2.2).2.1 =
      "STATIONS".toList := by
    intro u s; rw [eM u s, eS u]; exact hS
  have form : ∀ u s, loadData text u s =
      ({ pipes := (readStationsMarker u1 (readPipesMarker text u1 s1).1
            (readPipesMarker text u1 s1).2.1 (readPipesMarker text u1 s1).2.2).2.2.2,
         stations := (readStations u
            (readStationsMarker u1 (readPipesMarker text u1 s1).1
              (readPipesMarker text u1 s1).2.1 (readPipesMarker text u1 s1).2.2).2.2.1 0
            (ignore (readStationsMarker u1 (readPipesMarker text u1 s1).1
              (readPipesMarker text u1 s1).2.1 (readPipesMarker text u1 s1).2.2).1) []).2,
         nextPipeId := (readCounters text s1).2.2.1,
         nextStationId := (readCounters text s1).2.2.2 }, .loaded) := by
    intro u s
    rw [loadData_form text u s (hP2 u s) (hS2 u s), eC s, eM u s, eS u]
  have hstream := loadStream_form text u1 s1 hP hS
  have h2 := form u2 s2
  have h1 := form u1 s1
  refine ⟨by rw [h2], by rw [h2, h1], by rw [h2, h1], by rw [h2, h1], ?_, ?_, ?_, ?_⟩
  · rw [h2, h1]
    simp only [readStations_length]
  · intro hgood
    rw [hstream] at hgood
    rw [h2, h1, readStations_indep u1 u2 _ _ _ _ hgood]
  · intro hu
    rw [h2, h1, readStations_congr u1 u2 hu]
  · rw [form u1 PipelineSystem.empty, h1]

/-- C7 on the file saved from the store with the station CS1, loaded over the
store with three pipes and, with other indeterminate values, over the empty
store. -/
theorem C7_load_replaces_state_witness :
    (loadData (saveData cs1Store) Uninit.zero threePipes).2 = .loaded ∧
    (loadStream (saveData cs1Store) Uninit.zero threePipes).failbit = false ∧
    loadData (saveData cs1Store) Uninit.seven PipelineSystem.empty =
      loadData (saveData cs1Store) Uninit.zero threePipes ∧
    (loadData (saveData cs1Store) Uninit.zero threePipes).1 = cs1Store :=
  ⟨by decide, by decide,
    (C7_load_replaces_state (saveData cs1Store) Uninit.zero Uninit.seven threePipes
      PipelineSystem.empty (by decide)).2.2.2.2.2.1 (by decide),
    by decide⟩


/-! ### Round trip: numbers written and read back -/

theorem digitChar_props : ∀ d, d < 10 →
    (digitChar d).isDigit = true ∧ digitOfChar (digitChar d) = d ∧
    (digitChar d).toNat - 48 = d ∧ isSpace (digitChar d) = false ∧
    digitChar d ≠ '-' ∧ digitChar d ≠ '+' ∧ digitChar d ≠ '.' ∧
    digitChar d ≠ 'e' ∧ digitChar d ≠ 'E' ∧ digitChar d ≠ '\n' := by
  decide

theorem ofDigitsBE_append (l : List Nat) (d : Nat) :
    ofDigitsBE (l ++ [d]) = 10 * ofDigitsBE l + d := by
  simp [ofDigitsBE, List.foldl_append]

theorem decDigits_lt (fuel n : Nat) : ∀ d ∈ decDigits fuel n, d < 10 := by
  induction fuel generalizing n with
  | zero => simp [decDigits]
  | succ fuel ih =>
    unfold decDigits
    split_ifs with h
    · simpa using h
    · intro d hd
      rw [List.mem_append, List.mem_singleton] at hd
      rcases hd with hd | hd
      · exact ih _ d hd
      · omega

theorem decDigits_ne_nil (fuel n : Nat) : decDigits (fuel + 1) n ≠ [] := by
  unfold decDigits
  split_ifs <;> simp

theorem decDigits_value (fuel n : Nat) (h : n < fuel) : ofDigitsBE (decDigits fuel n) = n := by
  induction fuel generalizing n with
  | zero => omega
  | succ fuel ih =>
    unfold decDigits
    split_ifs with h10
    · simp [ofDigitsBE]
    · rw [ofDigitsBE_append, ih (n / 10) (by omega)]
      omega

theorem toDigits_lt (n : Nat) : ∀ d ∈ toDigits n, d < 10 := decDigits_lt _ _

theorem toDigits_ne_nil (n : Nat) : toDigits n ≠ [] := decDigits_ne_nil _ _

theorem toDigits_value (n : Nat) : ofDigitsBE (toDigits n) = n :=
  decDigits_value _ _ (Nat.lt_succ_self n)

theorem digitsValue_map_aux (ds : List Nat) (h : ∀ d ∈ ds, d < 10) (acc : Nat) :
    List.foldl (fun n c => 10 * n + (c.toNat - 48)) acc (ds.map digitChar) =
      List.foldl (fun n d => 10 * n + d) acc ds := by
  induction ds generalizing acc with
  | nil => rfl
  | cons d ds ih =>
    simp only [List.map_cons, List.foldl_cons]
    rw [(digitChar_props d (h d (List.mem_cons_self _ _))).2.2.1]
    exact ih (fun x hx => h x (List.mem_cons_of_mem _ hx)) _

theorem digitsValue_map (ds : List Nat) (h : ∀ d ∈ ds, d < 10) :
    digitsValue (ds.map digitChar) = ofDigitsBE ds :=
  digitsValue_map_aux ds h 0

theorem digitsValue_showNat (n : Nat) : digitsValue (showNat n) = n := by
  unfold showNat
  rw [digitsValue_map _ (toDigits_lt n), toDigits_value]

theorem all_isDigit_map (ds : List Nat) (h : ∀ d ∈ ds, d < 10) :
    ∀ c ∈ ds.map digitChar, Char.isDigit c = true := by
  intro c hc
  rw [List.mem_map] at hc
  obtain ⟨d, hd, rfl⟩ := hc
  exact (digitChar_props d (h d hd)).1

theorem showNat_isDigit (n : Nat) : ∀ c ∈ showNat n, Char.isDigit c = true :=
  all_isDigit_map _ (toDigits_lt n)

theorem showNat_ne_nil (n : Nat) : showNat n ≠ [] := by
  unfold showNat
  simpa using toDigits_ne_nil n

/-- A field of characters satisfying `p`, followed by one that does not. -/
theorem takeWhile_field (p : Char → Bool) (l : Str) (c : Char) (rest : Str)
    (hl : ∀ x ∈ l, p x = true) (hc : p c = false) :
    (l ++ c :: rest).takeWhile p = l ∧ (l ++ c :: rest).dropWhile p = c :: rest := by
  induction l with
  | nil => simp [List.takeWhile, List.dropWhile, hc]
  | cons a l ih =>
    have ha := hl a (List.mem_cons_self _ _)
    have ih1 := ih (fun x hx => hl x (List.mem_cons_of_mem _ hx))
    simp [List.takeWhile, List.dropWhile, ha, ih1.1, ih1.2]

theorem isDigit_not_space (c : Char) (h : c.isDigit = true) : isSpace c = false := by
  have h1 : c.val ≥ 48 := by
    simp only [Char.isDigit, Bool.and_eq_true, decide_eq_true_eq] at h
    exact h.1
  simp only [isSpace, Bool.or_eq_false_iff, beq_eq_false_iff_ne, ne_eq]
  refine ⟨⟨⟨⟨⟨?_, ?_⟩, ?_⟩, ?_⟩, ?_⟩, ?_⟩ <;>
  · intro hck
    rw [hck] at h1
    exact absurd h1 (by decide)

theorem isDigit_not_sign (c : Char) (h : c.isDigit = true) : c ≠ '-' ∧ c ≠ '+' := by
  have h1 : c.val ≥ 48 := by
    simp only [Char.isDigit, Bool.and_eq_true, decide_eq_true_eq] at h
    exact h.1
  constructor <;>
  · intro hck
    rw [hck] at h1
    exact absurd h1 (by decide)


theorem scanSign_minus (r : Str) : scanSign ('-' :: r) = (true, r) := rfl

theorem scanSign_other (c : Char) (r : Str) (h1 : c ≠ '-') (h2 : c ≠ '+') :
    scanSign (c :: r) = (false, c :: r) := by
  unfold scanSign
  split
  · rename_i heq; cases heq; exact absurd rfl h1
  · rename_i heq; cases heq; exact absurd rfl h2
  · rfl

theorem sentry_skip (ws : Str) (c : Char) (r : Str) (hws : ∀ x ∈ ws, isSpace x = true)
    (hc : isSpace c = false) :
    sentry false (goodAt (ws ++ c :: r)) = (goodAt (c :: r), true) := by
  unfold sentry goodAt
  simp only [Bool.or_self, Bool.false_eq_true, if_false]
  rw [(takeWhile_field isSpace ws c r hws hc).2]

theorem readString_field (ws w : Str) (c : Char) (rest old : Str)
    (hws : ∀ x ∈ ws, isSpace x = true) (hw : ∀ x ∈ w, isSpace x = false) (hne : w ≠ [])
    (hc : isSpace c = true) :
    readString (goodAt (ws ++ (w ++ c :: rest))) old = (goodAt (c :: rest), w) := by
  cases w with
  | nil => exact absurd rfl hne
  | cons a w =>
    unfold readString
    rw [List.cons_append, sentry_skip ws a _ hws (hw a (List.mem_cons_self _ _))]
    have hf := takeWhile_field (fun x => !isSpace x) (a :: w) c rest
      (by intro x hx; simp [hw x hx]) (by simp [hc])
    simp only [goodAt]
    rw [← List.cons_append, hf.1, hf.2]
    rfl

theorem scanInteger_showInt (v : Int) (c : Char) (rest : Str) (hc : c.isDigit = false) :
    scanInteger (showInt v ++ c :: rest) = (decide (v < 0), showNat v.natAbs, c :: rest) := by
  have hf := takeWhile_field Char.isDigit (showNat v.natAbs) c rest
    (showNat_isDigit _) hc
  unfold scanInteger showInt
  split_ifs with hv
  · rw [List.cons_append, scanSign_minus]
    simp [hf.1, hf.2, hv]
  · cases hs : showNat v.natAbs with
    | nil => exact absurd hs (showNat_ne_nil _)
    | cons d t =>
      have hd : d.isDigit = true := showNat_isDigit v.natAbs d (by rw [hs]; simp)
      rw [hs] at hf
      rw [List.cons_append, scanSign_other d _ (isDigit_not_sign d hd).1
        (isDigit_not_sign d hd).2]
      rw [List.cons_append] at hf
      simp [hf.1, hf.2, hv]

theorem showInt_head (v : Int) (t : Str) :
    ∃ a r, showInt v ++ t = a :: r ∧ isSpace a = false := by
  unfold showInt
  split_ifs
  · exact ⟨'-', _, rfl, by decide⟩
  · cases hs : showNat v.natAbs with
    | nil => exact absurd hs (showNat_ne_nil _)
    | cons d r =>
      have hd : d.isDigit = true := showNat_isDigit v.natAbs d (by rw [hs]; simp)
      exact ⟨d, r ++ t, rfl, isDigit_not_space d hd⟩

theorem signed_natAbs (v : Int) : signed (decide (v < 0)) v.natAbs = v := by
  unfold signed
  by_cases h : v < 0
  · simp only [h, decide_True, if_true]; omega
  · simp only [h, decide_False, Bool.false_eq_true, if_false]; omega

theorem readInt_field (ws : Str) (v : Int) (c : Char) (rest : Str) (old : Int)
    (hws : ∀ x ∈ ws, isSpace x = true) (hv : INT_MIN ≤ v ∧ v ≤ INT_MAX)
    (hc : c.isDigit = false) :
    readInt (goodAt (ws ++ (showInt v ++ c :: rest))) old = (goodAt (c :: rest), v) := by
  obtain ⟨a, r, har, ha⟩ := showInt_head v (c :: rest)
  unfold readInt
  rw [har, sentry_skip ws a r hws ha]
  simp only [goodAt]
  rw [← har, scanInteger_showInt v c rest hc]
  simp only [digitsValue_showNat, signed_natAbs, List.isEmpty_cons]
  have h1 : (showNat v.natAbs).isEmpty = false := by
    cases hs : showNat v.natAbs with
    | nil => exact absurd hs (showNat_ne_nil _)
    | cons d t => rfl
  have h2 : ¬ v < INT_MIN := not_lt.mpr hv.1
  have h3 : ¬ INT_MAX < v := not_lt.mpr hv.2
  simp [h1, h2, h3]


theorem readSize_field (ws : Str) (n : Nat) (c : Char) (rest : Str) (old : Nat)
    (hws : ∀ x ∈ ws, isSpace x = true) (hn : n < SIZE_RANGE) (hc : c.isDigit = false) :
    readSize (goodAt (ws ++ (showNat n ++ c :: rest))) old = (goodAt (c :: rest), n) := by
  have hi : showInt (n : Int) = showNat n := by
    unfold showInt
    rw [if_neg (by omega)]
    simp
  obtain ⟨a, r, har, ha⟩ := showInt_head (n : Int) (c :: rest)
  rw [hi] at har
  unfold readSize
  rw [har, sentry_skip ws a r hws ha]
  simp only [goodAt]
  have hsc := scanInteger_showInt (n : Int) c rest hc
  rw [hi] at hsc
  rw [← har, hsc]
  have h1 : (showNat n).isEmpty = false := by
    cases hs : showNat n with
    | nil => exact absurd hs (showNat_ne_nil _)
    | cons d t => rfl
  have h0 : ¬ ((n : Int) < 0) := by omega
  simp [h1, digitsValue_showNat, not_le.mpr hn, h0]

theorem readBool_field (ws : Str) (b : Bool) (rest : Str) (old : Bool)
    (hws : ∀ x ∈ ws, isSpace x = true) :
    readBool (goodAt (ws ++ (showBool b ++ '\n' :: rest))) old = (goodAt ('\n' :: rest), b) := by
  unfold readBool
  cases b with
  | false =>
    have hs : showBool false ++ '\n' :: rest = '0' :: '\n' :: rest := rfl
    rw [hs, sentry_skip ws '0' _ hws (by decide)]
    simp [goodAt, scanInteger, scanSign, List.takeWhile, List.dropWhile, signed, digitsValue]
  | true =>
    have hs : showBool true ++ '\n' :: rest = '1' :: '\n' :: rest := rfl
    rw [hs, sentry_skip ws '1' _ hws (by decide)]
    simp [goodAt, scanInteger, scanSign, List.takeWhile, List.dropWhile, signed, digitsValue]

theorem ignore_cons (c : Char) (rest : Str) : ignore (goodAt (c :: rest)) = goodAt rest := rfl

theorem getline_field (name rest old : Str) (hn : '\n' ∉ name) :
    getline (goodAt (name ++ '\n' :: rest)) old = (goodAt rest, name) := by
  have hf := takeWhile_field (fun x => x != '\n') name '\n' rest
    (by intro x hx; simp; intro hxn; exact hn (hxn ▸ hx)) (by simp)
  unfold getline sentry goodAt
  simp only [Bool.or_self, Bool.false_eq_true, if_false, if_true]
  rw [hf.1, hf.2]


/-! ### Round trip: `double` -/

theorem stripTrailingZeros_zeros (ds : List Nat) (b : Nat) (h : ds.getLast? ≠ some 0) :
    stripTrailingZeros (ds ++ List.replicate b 0) = ds := by
  unfold stripTrailingZeros
  rw [List.reverse_append, List.reverse_replicate]
  have h1 : (List.replicate b 0 ++ ds.reverse).dropWhile (· == 0) =
      ds.reverse.dropWhile (· == 0) := by
    induction b with
    | zero => rfl
    | succ b ih =>
      rw [List.replicate_succ, List.cons_append, List.dropWhile_cons]
      simp
  rw [h1]
  have h2 : ds.reverse.dropWhile (· == 0) = ds.reverse := by
    cases hr : ds.reverse with
    | nil => rfl
    | cons a t =>
      have ha : ds.getLast? = some a := by
        rw [← List.head?_reverse, hr]; rfl
      have : a ≠ 0 := by
        intro h0; rw [h0] at ha; exact h ha
      rw [List.dropWhile_cons]
      simp [this]
  rw [h2, List.reverse_reverse]

theorem stripTrailingZeros_id (ds : List Nat) (h : ds.getLast? ≠ some 0) :
    stripTrailingZeros ds = ds := by
  have := stripTrailingZeros_zeros ds 0 h
  simpa using this

theorem span_zeros (a : Nat) (l : List Nat) (h : l.head? ≠ some 0) :
    (List.replicate a 0 ++ l).dropWhile (· == 0) = l ∧
    ((List.replicate a 0 ++ l).takeWhile (· == 0)).length = a := by
  induction a with
  | zero =>
    cases l with
    | nil => simp
    | cons x t =>
      have hx : x ≠ 0 := by
        intro h0; apply h; simp [h0]
      rw [List.replicate_zero, List.nil_append, List.dropWhile_cons, List.takeWhile_cons]
      simp [hx]
  | succ a ih =>
    rw [List.replicate_succ, List.cons_append, List.dropWhile_cons, List.takeWhile_cons]
    simp only [beq_self_eq_true, if_true, List.length_cons]
    exact ⟨ih.1, by rw [ih.2]⟩

theorem mkDouble_zeros (neg : Bool) (ds : List Nat) (a b : Nat) (e : Int) (hne : ds ≠ [])
    (hh : ds.head? ≠ some 0) (hl : ds.getLast? ≠ some 0) :
    mkDouble neg (List.replicate a 0 ++ (ds ++ List.replicate b 0)) e =
      { neg := neg, digits := ds, exp := e - a } := by
  have hh2 : (ds ++ List.replicate b 0).head? ≠ some 0 := by
    cases ds with
    | nil => exact absurd rfl hne
    | cons x t => simpa using hh
  have hs := span_zeros a (ds ++ List.replicate b 0) hh2
  unfold mkDouble
  simp only [hs.1, hs.2, stripTrailingZeros_zeros ds b hl]
  have : ds.isEmpty = false := by
    cases ds with
    | nil => exact absurd rfl hne
    | cons x t => rfl
  simp [this]

theorem map_digitOfChar (ds : List Nat) (h : ∀ d ∈ ds, d < 10) :
    (ds.map digitChar).map digitOfChar = ds := by
  induction ds with
  | nil => rfl
  | cons d ds ih =>
    simp only [List.map_cons]
    rw [(digitChar_props d (h d (List.mem_cons_self _ _))).2.1,
      ih (fun x hx => h x (List.mem_cons_of_mem _ hx))]

theorem scanFraction_field (F : List Nat) (c : Char) (r : Str) (hF : ∀ d ∈ F, d < 10)
    (hc1 : c.isDigit = false) (hc2 : c ≠ '.') :
    scanFraction (fracText F ++ c :: r) = (F.map digitChar, c :: r) := by
  unfold fracText
  cases F with
  | nil =>
    simp only [List.isEmpty_nil, if_true, List.nil_append, List.map_nil]
    unfold scanFraction
    split
    · rename_i heq; cases heq; exact absurd rfl hc2
    · rfl
  | cons d t =>
    have hf := takeWhile_field Char.isDigit ((d :: t).map digitChar) c r
      (all_isDigit_map _ hF) hc1
    simp only [List.isEmpty_cons, Bool.false_eq_true, if_false, List.cons_append]
    unfold scanFraction
    simp only
    rw [hf.1, hf.2]

theorem scanExponent_newline (r : Str) :
    scanExponent true ('\n' :: r) = (false, false, [], '\n' :: r) := by
  simp [scanExponent]

theorem digitsValue_zero_cons (l : Str) : digitsValue ('0' :: l) = digitsValue l := by
  simp [digitsValue]

theorem scanExponent_showExponent (X : Int) (r : Str) :
    ∃ expDs, scanExponent true (showExponent X ++ '\n' :: r) =
        (true, decide (X < 0), expDs, '\n' :: r) ∧
      expDs.isEmpty = false ∧ signed (decide (X < 0)) (digitsValue expDs) = X := by
  have hval : signed (decide (X < 0)) X.natAbs = X := signed_natAbs X
  have hd0 : ∀ x ∈ '0' :: showNat X.natAbs, Char.isDigit x = true := by
    intro x hx
    rcases List.mem_cons.1 hx with h | h
    · rw [h]; decide
    · exact showNat_isDigit _ x h
  by_cases h10 : X.natAbs < 10
  · refine ⟨'0' :: showNat X.natAbs, ?_, rfl, ?_⟩
    · have hf := takeWhile_field Char.isDigit ('0' :: showNat X.natAbs) '\n' r hd0 (by decide)
      unfold showExponent scanExponent
      simp only [h10, if_true, List.cons_append]
      by_cases hX : X < 0
      · simp only [hX, if_true, scanSign_minus]
        rw [List.cons_append] at hf
        simp [hf.1, hf.2]
      · simp only [hX, if_false]
        rw [List.cons_append] at hf
        simp [scanSign, hf.1, hf.2]
    · rw [digitsValue_zero_cons, digitsValue_showNat]; exact hval
  · refine ⟨showNat X.natAbs, ?_, ?_, ?_⟩
    · have hf := takeWhile_field Char.isDigit (showNat X.natAbs) '\n' r
        (showNat_isDigit _) (by decide)
      unfold showExponent scanExponent
      simp only [h10, if_false, List.cons_append]
      by_cases hX : X < 0
      · simp only [hX, if_true, scanSign_minus]
        simp [hf.1, hf.2]
      · simp only [hX, if_false]
        simp [scanSign, hf.1, hf.2]
    · cases hs : showNat X.natAbs with
      | nil => exact absurd hs (showNat_ne_nil _)
      | cons d t => rfl
    · rw [digitsValue_showNat]; exact hval


/-- Reading a number written as sign, integer digits `I`, fraction `F` and
what `scanExponent` accepts after them. -/
theorem readDouble_body (ws : Str) (neg : Bool) (I F : List Nat) (c : Char) (r : Str)
    (old : Double) (hws : ∀ x ∈ ws, isSpace x = true) (hI : I ≠ [])
    (hId : ∀ d ∈ I, d < 10) (hFd : ∀ d ∈ F, d < 10)
    (hc1 : c.isDigit = false) (hc2 : c ≠ '.')
    (hasExp eneg : Bool) (expDs r4 : Str)
    (hexp : scanExponent true (c :: r) = (hasExp, eneg, expDs, r4))
    (hvalid : (hasExp && expDs.isEmpty) = false) (hr4 : r4.isEmpty = false) :
    readDouble (goodAt (ws ++ ((if neg then ['-'] else []) ++
        (I.map digitChar ++ (fracText F ++ c :: r))))) old =
      (goodAt r4, mkDouble neg (I ++ F)
        ((I.length : Int) - 1 + signed eneg (digitsValue expDs))) := by
  obtain ⟨i0, I1, rfl⟩ := List.exists_cons_of_ne_nil hI
  have hi0 := digitChar_props i0 (hId i0 (List.mem_cons_self _ _))
  -- the field starts with a character that is not white space
  have hhead : ∃ a t, (if neg then ['-'] else []) ++
      ((i0 :: I1).map digitChar ++ (fracText F ++ c :: r)) = a :: t ∧ isSpace a = false := by
    cases neg with
    | true => exact ⟨'-', _, rfl, by decide⟩
    | false => exact ⟨digitChar i0, _, rfl, hi0.2.2.2.1⟩
  obtain ⟨a, t, hat, ha⟩ := hhead
  -- sign
  have hsign : scanSign ((if neg then ['-'] else []) ++
      ((i0 :: I1).map digitChar ++ (fracText F ++ c :: r))) =
      (neg, (i0 :: I1).map digitChar ++ (fracText F ++ c :: r)) := by
    cases neg with
    | true => exact scanSign_minus _
    | false =>
      exact scanSign_other (digitChar i0) _ hi0.2.2.2.2.1 hi0.2.2.2.2.2.1
  -- integer digits, ended by the point or by `c`
  have hint : ((i0 :: I1).map digitChar ++ (fracText F ++ c :: r)).takeWhile Char.isDigit =
        (i0 :: I1).map digitChar ∧
      ((i0 :: I1).map digitChar ++ (fracText F ++ c :: r)).dropWhile Char.isDigit =
        fracText F ++ c :: r := by
    unfold fracText
    split_ifs
    · exact takeWhile_field Char.isDigit _ c r (all_isDigit_map _ hId) hc1
    · exact takeWhile_field Char.isDigit _ '.' _ (all_isDigit_map _ hId) (by decide)
  have hfrac := scanFraction_field F c r hFd hc1 hc2
  unfold readDouble
  rw [hat, sentry_skip ws a t hws ha]
  simp only [goodAt]
  rw [← hat, hsign]
  have hne : ((i0 :: I1).map digitChar).isEmpty = false := rfl
  simp only [hint.1, hint.2, hfrac, hne, Bool.false_and, Bool.not_false, hexp, hvalid,
    Bool.and_self, if_true, hr4, List.length_map]
  rw [← List.map_append, map_digitOfChar]
  intro d hd
  rcases List.mem_append.1 hd with h | h
  · exact hId d h
  · exact hFd d h


theorem roundDigits_sixDigits (x : Double) (hx : x.SixDigits) :
    roundDigits x.digits x.exp = (x.digits, x.exp) := by
  unfold roundDigits
  rw [if_pos hx.1, stripTrailingZeros_id _ hx.2.2.2.1]

theorem take_append_drop_zeros (ds : List Nat) (k : Nat) :
    (ds.take k ++ List.replicate (k - ds.length) 0) ++ ds.drop k =
      ds ++ List.replicate (k - ds.length) 0 := by
  rcases Nat.lt_or_ge k ds.length with h | h
  · have : k - ds.length = 0 := by omega
    simp [this]
  · rw [List.take_of_length_le h, List.drop_of_length_le h]
    simp

theorem length_take_zeros (ds : List Nat) (k : Nat) :
    (ds.take k ++ List.replicate (k - ds.length) 0).length = k := by
  simp only [List.length_append, List.length_take, List.length_replicate]
  omega

/-- A `double` of at most six significant digits is read back as written. -/
theorem readDouble_field (ws : Str) (x : Double) (rest : Str) (old : Double)
    (hws : ∀ x ∈ ws, isSpace x = true) (hx : x.SixDigits) :
    readDouble (goodAt (ws ++ (showDouble x ++ '\n' :: rest))) old =
      (goodAt ('\n' :: rest), x) := by
  obtain ⟨neg, ds, X⟩ := x
  have hr := roundDigits_sixDigits _ hx
  obtain ⟨hlen, hdig, hhead, hlast, hzero⟩ := hx
  simp only at hr hlen hdig hhead hlast hzero
  cases ds with
  | nil =>
    have hX : X = 0 := hzero rfl
    subst hX
    have htext : showDouble ⟨neg, [], 0⟩ ++ '\n' :: rest =
        (if neg then ['-'] else []) ++
          ([0].map digitChar ++ (fracText [] ++ '\n' :: rest)) := by
      simp only [showDouble, hr, fracText]
      cases neg <;> rfl
    rw [htext, readDouble_body ws neg [0] [] '\n' rest old hws (by simp) (by simp) (by simp)
      (by decide) (by decide) false false [] ('\n' :: rest) (scanExponent_newline rest)
      rfl rfl]
    rfl
  | cons d t =>
    have hne : d :: t ≠ [] := by simp
    by_cases hsci : X < -4 ∨ 6 ≤ X
    · -- scientific style
      obtain ⟨expDs, hexp, hexpne, hexpval⟩ := scanExponent_showExponent X rest
      have htext : showDouble ⟨neg, d :: t, X⟩ ++ '\n' :: rest =
          (if neg then ['-'] else []) ++
            ([d].map digitChar ++ (fracText t ++ (showExponent X ++ '\n' :: rest))) := by
        simp only [showDouble, hr, fracText, hsci, if_true]
        cases neg <;> cases t <;> simp
      have hc : showExponent X ++ '\n' :: rest =
          'e' :: ((showExponent X).tail ++ '\n' :: rest) := by
        simp [showExponent]
      rw [hc] at hexp
      rw [htext, hc, readDouble_body ws neg [d] t 'e' _ old hws (by simp)
        (by intro y hy; exact hdig y (by simp at hy; simp [hy]))
        (by intro y hy; exact hdig y (List.mem_cons_of_mem _ hy))
        (by decide) (by decide) true (decide (X < 0)) expDs ('\n' :: rest) hexp
        (by simp [hexpne]) rfl]
      rw [hexpval]
      have hm := mkDouble_zeros neg (d :: t) 0 0 ((1 : Int) - 1 + X) hne hhead hlast
      simp only [List.replicate_zero, List.nil_append, List.append_nil] at hm
      simp only [List.singleton_append, List.length_singleton, Nat.cast_one]
      rw [hm]
      simp
    · rw [not_or, not_lt, not_le] at hsci
      by_cases hpos : 0 ≤ X
      · -- fixed style, no zeros in front
        have htext : showDouble ⟨neg, d :: t, X⟩ ++ '\n' :: rest =
            (if neg then ['-'] else []) ++
              (((d :: t).take (X.toNat + 1) ++
                  List.replicate (X.toNat + 1 - (d :: t).length) 0).map digitChar ++
                (fracText ((d :: t).drop (X.toNat + 1)) ++ '\n' :: rest)) := by
          have hns : ¬ (X < -4 ∨ 6 ≤ X) := by omega
          simp only [showDouble, hr, fracText, hns, if_false, hpos, if_true]
          cases neg <;> simp
        rw [htext, readDouble_body ws neg _ _ '\n' rest old hws
          (by simp)
          (by
            intro y hy
            rcases List.mem_append.1 hy with h | h
            · exact hdig y (List.mem_of_mem_take h)
            · rw [List.mem_replicate] at h; omega)
          (by intro y hy; exact hdig y (List.mem_of_mem_drop hy))
          (by decide) (by decide) false false [] ('\n' :: rest) (scanExponent_newline rest)
          rfl rfl]
        rw [take_append_drop_zeros, length_take_zeros]
        have hm := mkDouble_zeros neg (d :: t) 0 (X.toNat + 1 - (d :: t).length)
          (((X.toNat + 1 : Nat) : Int) - 1 + signed false (digitsValue [])) hne hhead hlast
        simp only [List.replicate_zero, List.nil_append] at hm
        rw [hm]
        simp only [signed, digitsValue, List.foldl_nil, Bool.false_eq_true, if_false]
        have hexp : ((X.toNat + 1 : Nat) : Int) - 1 + ((0 : Nat) : Int) - ((0 : Nat) : Int) = X := by
          omega
        rw [hexp]
      · -- fixed style, zeros after the point
        have hz : ((-X).toNat - 1) + 1 = (-X).toNat := by omega
        have htext : showDouble ⟨neg, d :: t, X⟩ ++ '\n' :: rest =
            (if neg then ['-'] else []) ++
              ([0].map digitChar ++
                (fracText (List.replicate ((-X).toNat - 1) 0 ++ d :: t) ++ '\n' :: rest)) := by
          have hns : ¬ (X < -4 ∨ 6 ≤ X) := by omega
          simp only [showDouble, hr, fracText, hns, if_false, hpos]
          cases neg <;> simp [digitChar]
        rw [htext, readDouble_body ws neg [0] _ '\n' rest old hws (by simp) (by simp)
          (by
            intro y hy
            rcases List.mem_append.1 hy with h | h
            · rw [List.mem_replicate] at h; omega
            · exact hdig y h)
          (by decide) (by decide) false false [] ('\n' :: rest) (scanExponent_newline rest)
          rfl rfl]
        have hm := mkDouble_zeros neg (d :: t) ((-X).toNat - 1 + 1) 0
          (((1 : Nat) : Int) - 1 + signed false (digitsValue [])) hne hhead hlast
        simp only [List.replicate_succ, List.replicate_zero, List.append_nil,
          List.cons_append] at hm
        simp only [List.singleton_append, List.length_singleton]
        rw [hm]
        simp only [signed, digitsValue, List.foldl_nil, Bool.false_eq_true, if_false]
        have hexp : ((1 : Nat) : Int) - 1 + ((0 : Nat) : Int) -
            (((-X).toNat - 1 + 1 : Nat) : Int) = X := by
          omega
        rw [hexp]


/-! ### Round trip: records and the whole file -/

theorem showPipe_append (p : Pipe) (rest : Str) :
    showPipe p ++ rest = showInt p.id ++ '\n' :: (p.name ++ '\n' ::
      (showDouble p.length ++ '\n' :: (showInt p.diameter ++ '\n' ::
        (showBool p.underRepair ++ '\n' :: rest)))) := by
  simp [showPipe]

theorem showStation_append (st : CompressorStation) (rest : Str) :
    showStation st ++ rest = showInt st.id ++ '\n' :: (st.name ++ '\n' ::
      (showInt st.totalWorkshops ++ '\n' :: (showInt st.activeWorkshops ++ '\n' ::
        (showInt st.stationClass ++ '\n' :: rest)))) := by
  simp [showStation]

theorem readInt_line (v : Int) (rest : Str) (old : Int) (hv : InInt v) :
    readInt (goodAt (showInt v ++ '\n' :: rest)) old = (goodAt ('\n' :: rest), v) := by
  have h := readInt_field [] v '\n' rest old (by simp) hv (by decide)
  simpa using h

theorem readInt_next (sp : Char) (v : Int) (rest : Str) (old : Int) (hsp : isSpace sp = true)
    (hv : InInt v) :
    readInt (goodAt (sp :: (showInt v ++ '\n' :: rest))) old = (goodAt ('\n' :: rest), v) := by
  have h := readInt_field [sp] v '\n' rest old (by simpa using hsp) hv (by decide)
  simpa using h

theorem readPipe_show (p p0 : Pipe) (rest : Str) (hp : p.Storable) :
    readPipe (goodAt (showPipe p ++ rest)) p0 = (goodAt rest, p) := by
  obtain ⟨hid, hname, hlen, hdiam⟩ := hp
  have h4 := readDouble_field [] p.length
    (showInt p.diameter ++ '\n' :: (showBool p.underRepair ++ '\n' :: rest)) p0.length
    (by simp) hlen
  have h6 := readBool_field ['\n'] p.underRepair rest p0.underRepair (by simp; decide)
  simp only [List.nil_append, List.singleton_append] at h4 h6
  rw [readPipe_eq, showPipe_append]
  simp only [readInt_line _ _ _ hid, ignore_cons, getline_field _ _ _ hname, h4,
    readInt_next '\n' _ _ _ (by decide) hdiam, h6]

theorem readStation_show (st s0 : CompressorStation) (rest : Str) (hs : st.Storable) :
    readStation (goodAt (showStation st ++ rest)) s0 = (goodAt rest, st) := by
  obtain ⟨hid, hname, htot, hact, hcls, hle⟩ := hs
  rw [readStation_eq, showStation_append]
  simp only [readInt_line _ _ _ hid, ignore_cons, getline_field _ _ _ hname,
    readInt_line _ _ _ htot, readInt_next '\n' _ _ _ (by decide) hact,
    readInt_next '\n' _ _ _ (by decide) hcls]
  have : ¬ st.activeWorkshops > st.totalWorkshops := by omega
  simp [this]

theorem readPipes_show (u : Uninit) (ps : List Pipe) (i : Nat) (rest : Str) (acc : List Pipe)
    (hps : ∀ p ∈ ps, p.Storable) :
    readPipes u ps.length i (goodAt ((ps.map showPipe).flatten ++ rest)) acc =
      (goodAt rest, acc ++ ps) := by
  induction ps generalizing i acc with
  | nil => simp [readPipes]
  | cons p ps ih =>
    simp only [List.length_cons, List.map_cons, List.flatten_cons, List.append_assoc]
    unfold readPipes
    rw [readPipe_show p _ _ (hps p (List.mem_cons_self _ _))]
    simp only
    rw [ih _ _ (fun q hq => hps q (List.mem_cons_of_mem _ hq))]
    simp

theorem readStations_show (u : Uninit) (sts : List CompressorStation) (i : Nat) (rest : Str)
    (acc : List CompressorStation) (hs : ∀ st ∈ sts, st.Storable) :
    readStations u sts.length i (goodAt ((sts.map showStation).flatten ++ rest)) acc =
      (goodAt rest, acc ++ sts) := by
  induction sts generalizing i acc with
  | nil => simp [readStations]
  | cons st sts ih =>
    simp only [List.length_cons, List.map_cons, List.flatten_cons, List.append_assoc]
    unfold readStations
    rw [readStation_show st _ _ (hs st (List.mem_cons_self _ _))]
    simp only
    rw [ih _ _ (fun q hq => hs q (List.mem_cons_of_mem _ hq))]
    simp


theorem saveData_eq (s : PipelineSystem) :
    saveData s = "NEXT_PIPE_ID".toList ++ ' ' :: (showInt s.nextPipeId ++ '\n' ::
      ("NEXT_STATION_ID".toList ++ ' ' :: (showInt s.nextStationId ++ '\n' ::
        ("PIPES".toList ++ ' ' :: (showNat s.pipes.length ++ '\n' ::
          ((s.pipes.map showPipe).flatten ++
            ("STATIONS".toList ++ ' ' :: (showNat s.stations.length ++ '\n' ::
              ((s.stations.map showStation).flatten ++ []))))))))) := by
  simp [saveData]

theorem readWord_first (w rest old : Str) (hw : ∀ x ∈ w, isSpace x = false) (hne : w ≠ []) :
    readString (goodAt (w ++ ' ' :: rest)) old = (goodAt (' ' :: rest), w) := by
  have h := readString_field [] w ' ' rest old (by simp) hw hne (by decide)
  simpa using h

theorem readWord_next (w rest old : Str) (hw : ∀ x ∈ w, isSpace x = false) (hne : w ≠ []) :
    readString (goodAt ('\n' :: (w ++ ' ' :: rest))) old = (goodAt (' ' :: rest), w) := by
  have h := readString_field ['\n'] w ' ' rest old (by simp; decide) hw hne (by decide)
  simpa using h

theorem readSize_next (n : Nat) (rest : Str) (old : Nat) (hn : n < SIZE_RANGE) :
    readSize (goodAt (' ' :: (showNat n ++ '\n' :: rest))) old = (goodAt ('\n' :: rest), n) := by
  have h := readSize_field [' '] n '\n' rest old (by simp; decide) hn (by decide)
  simpa using h

theorem goodAt_eq (t : Str) :
    ({ rest := t, eofbit := false, failbit := false } : IStream) = goodAt t := rfl


/-- C1, as stated, fails on the pipe length: the store with one pipe of
length 1234567 is within the claim's conditions, its length is written with the
six significant digits of the default precision (`1.23457e+06`) and read back
as 1234570, so the loaded store differs from the saved one. -/
theorem C1_round_trip_length_counterexample :
    longPipeStore.Accepted ∧
    showDouble ⟨false, [1, 2, 3, 4, 5, 6, 7], 6⟩ = "1.23457e+06".toList ∧
    (loadData (saveData longPipeStore) Uninit.zero PipelineSystem.empty).2 = .loaded ∧
    (loadData (saveData longPipeStore) Uninit.zero PipelineSystem.empty).1.pipes.map
      (·.length) = [⟨false, [1, 2, 3, 4, 5, 7], 6⟩] ∧
    (loadData (saveData longPipeStore) Uninit.zero PipelineSystem.empty).1 ≠ longPipeStore := by
  decide

/-- C1, amended. For every store `s` whose pipe lengths have at most six
significant decimal digits (and whose `int` fields and counters are `int`s,
whose names have no newline, whose stations have no more active workshops than
workshops), loading the text that `saveData` writes for `s` is accepted and
yields exactly `s`: the same pipes and stations in the same order with the same
field values, and the same two counters, whatever the prior store and the
indeterminate values are. -/
theorem C1_save_load_round_trip (s prior : PipelineSystem) (u : Uninit) (hs : s.Storable) :
    loadData (saveData s) u prior = (s, .loaded) := by
  obtain ⟨hnp, hns, hpl, hsl, hps, hss⟩ := hs
  have hc : readCounters (saveData s) prior =
      (goodAt ('\n' :: ("PIPES".toList ++ ' ' :: (showNat s.pipes.length ++ '\n' ::
          ((s.pipes.map showPipe).flatten ++
            ("STATIONS".toList ++ ' ' :: (showNat s.stations.length ++ '\n' ::
              ((s.stations.map showStation).flatten ++ []))))))),
        "NEXT_STATION_ID".toList, s.nextPipeId, s.nextStationId) := by
    unfold readCounters
    rw [saveData_eq, goodAt_eq]
    simp only [readWord_first "NEXT_PIPE_ID".toList _ _ (by decide) (by decide),
      readInt_next ' ' _ _ _ (by decide) hnp, ne_eq, not_true_eq_false, if_false,
      readWord_next "NEXT_STATION_ID".toList _ _ (by decide) (by decide),
      readInt_next ' ' _ _ _ (by decide) hns]
  have hm1 : readPipesMarker (saveData s) u prior =
      (goodAt ('\n' :: ((s.pipes.map showPipe).flatten ++
            ("STATIONS".toList ++ ' ' :: (showNat s.stations.length ++ '\n' ::
              ((s.stations.map showStation).flatten ++ []))))),
        "PIPES".toList, s.pipes.length) := by
    unfold readPipesMarker
    simp only [hc, readWord_next "PIPES".toList _ _ (by decide) (by decide),
      readSize_next _ _ _ hpl]
  have hm2 : readStationsMarker u
      (goodAt ('\n' :: ((s.pipes.map showPipe).flatten ++
            ("STATIONS".toList ++ ' ' :: (showNat s.stations.length ++ '\n' ::
              ((s.stations.map showStation).flatten ++ []))))))
      "PIPES".toList s.pipes.length =
      (goodAt ('\n' :: ((s.stations.map showStation).flatten ++ [])),
        "STATIONS".toList, s.stations.length, s.pipes) := by
    unfold readStationsMarker
    simp only [ignore_cons, readPipes_show u s.pipes 0 _ [] hps,
      readWord_first "STATIONS".toList _ _ (by decide) (by decide),
      readSize_next _ _ _ hsl, List.nil_append]
  unfold loadData
  simp only [hc, hm1, hm2, ne_eq, not_true_eq_false, if_false, ignore_cons,
    readStations_show u s.stations 0 [] [] hss, List.nil_append]

/-- C1 on the example: the pipe (id 1, "Main", 12.5, 500, under repair) is read
back with exactly these five values. -/
theorem C1_save_load_round_trip_witness :
    mainStore.Storable ∧ mainStore.Accepted ∧
    mainStore.pipes = [{ id := 1, name := ['M', 'a', 'i', 'n'],
                         length := ⟨false, [1, 2, 5], 1⟩, diameter := 500,
                         underRepair := true }] ∧
    loadData (saveData mainStore) Uninit.zero threePipes = (mainStore, .loaded) :=
  ⟨by decide, by decide, by decide,
    C1_save_load_round_trip mainStore threePipes Uninit.zero (by decide)⟩


/-! ### The text of an id list names its ids -/

theorem showInt_chars (v : Int) : ∀ c ∈ showInt v, c = '-' ∨ c.isDigit = true := by
  intro c hc
  unfold showInt at hc
  split_ifs at hc
  · rcases List.mem_cons.1 hc with h | h
    · left; exact h
    · right; exact showNat_isDigit _ c h
  · right; exact showNat_isDigit _ c hc

theorem showInt_no_comma (v : Int) : ∀ c ∈ showInt v, (c == ',') = false := by
  intro c hc
  rcases showInt_chars v c hc with h | h
  · rw [h]; decide
  · have h1 : c.val ≥ 48 := by
      simp only [Char.isDigit, Bool.and_eq_true, decide_eq_true_eq] at h
      exact h.1
    rw [beq_eq_false_iff_ne]
    intro hck
    rw [hck] at h1
    exact absurd h1 (by decide)

theorem showInt_ne_nil (v : Int) : showInt v ≠ [] := by
  obtain ⟨a, r, har, _⟩ := showInt_head v []
  intro h
  rw [h] at har
  cases har

theorem splitTokens_cons (cur : Str) (c : Char) (cs : Str) :
    splitTokens cur (c :: cs) =
      if c == ',' then cur :: splitTokens [] cs else splitTokens (cur ++ [c]) cs := rfl

theorem splitTokens_field (w cur rest : Str) (hw : ∀ c ∈ w, (c == ',') = false) :
    splitTokens cur (w ++ ',' :: rest) = (cur ++ w) :: splitTokens [] rest := by
  induction w generalizing cur with
  | nil => simp [splitTokens]
  | cons a w ih =>
    rw [List.cons_append, splitTokens_cons]
    rw [hw a (List.mem_cons_self _ _)]
    simp only [Bool.false_eq_true, if_false]
    rw [ih _ (fun c hc => hw c (List.mem_cons_of_mem _ hc))]
    simp

theorem splitTokens_last (w cur : Str) (hw : ∀ c ∈ w, (c == ',') = false)
    (hne : cur ++ w ≠ []) : splitTokens cur w = [cur ++ w] := by
  induction w generalizing cur with
  | nil =>
    have : cur ≠ [] := by simpa using hne
    cases cur with
    | nil => exact absurd rfl this
    | cons a t => simp [splitTokens]
  | cons a w ih =>
    rw [splitTokens_cons]
    rw [hw a (List.mem_cons_self _ _)]
    simp only [Bool.false_eq_true, if_false]
    rw [ih _ (fun c hc => hw c (List.mem_cons_of_mem _ hc)) (by simp)]
    simp

theorem splitTokens_joinIds (ids : List Int) :
    splitTokens [] (joinIds ids) = ids.map showInt := by
  induction ids with
  | nil => rfl
  | cons a l ih =>
    cases l with
    | nil =>
      simp only [joinIds, List.map_cons, List.map_nil]
      rw [splitTokens_last _ _ (showInt_no_comma a) (by simpa using showInt_ne_nil a)]
      simp
    | cons b l =>
      simp only [joinIds, List.map_cons] at ih ⊢
      rw [splitTokens_field _ _ _ (showInt_no_comma a), ih]
      simp

theorem takeWhile_all (p : Char → Bool) (l : Str) (h : ∀ x ∈ l, p x = true) :
    l.takeWhile p = l := by
  induction l with
  | nil => rfl
  | cons a l ih =>
    rw [List.takeWhile_cons, h a (List.mem_cons_self _ _)]
    simp only [if_true]
    rw [ih (fun x hx => h x (List.mem_cons_of_mem _ hx))]

theorem stoi_showInt (v : Int) (hv : InInt v) : stoi (showInt v) = some v := by
  obtain ⟨a, r, har, ha⟩ := showInt_head v []
  rw [List.append_nil] at har
  have hdrop : (showInt v).dropWhile isSpace = showInt v := by
    rw [har, List.dropWhile_cons, ha]
    simp
  have hscan : scanSign (showInt v) = (decide (v < 0), showNat v.natAbs) := by
    unfold showInt
    split_ifs with h
    · simp [scanSign_minus, h]
    · cases hs : showNat v.natAbs with
      | nil => exact absurd hs (showNat_ne_nil _)
      | cons d t =>
        have hd : d.isDigit = true := showNat_isDigit v.natAbs d (by rw [hs]; simp)
        rw [scanSign_other d _ (isDigit_not_sign d hd).1 (isDigit_not_sign d hd).2]
        simp [h]
  have hne : (showNat v.natAbs).isEmpty = false := by
    cases hs : showNat v.natAbs with
    | nil => exact absurd hs (showNat_ne_nil _)
    | cons d t => rfl
  unfold stoi
  rw [hdrop, hscan]
  simp only [takeWhile_all _ _ (showNat_isDigit v.natAbs), hne, Bool.false_eq_true, if_false,
    digitsValue_showNat, signed_natAbs]
  rw [if_pos (show INT_MIN ≤ v ∧ v ≤ INT_MAX from hv)]

theorem namedIds_joinIds (ids : List Int) (h : ∀ id ∈ ids, InInt id) :
    namedIds (joinIds ids) = ids := by
  unfold namedIds
  rw [splitTokens_joinIds]
  induction ids with
  | nil => rfl
  | cons a l ih =>
    rw [List.map_cons, List.filterMap_cons, stoi_showInt a (h a (List.mem_cons_self _ _))]
    simp only
    rw [ih (fun x hx => h x (List.mem_cons_of_mem _ hx))]

theorem isWildcard_joinIds (ids : List Int) : isWildcard (joinIds ids) = false := by
  have hhead : ∀ (v : Int) (t : Str), ∃ a r, showInt v ++ t = a :: r ∧
      (a = '-' ∨ a.isDigit = true) := by
    intro v t
    obtain ⟨a, r, har, _⟩ := showInt_head v t
    refine ⟨a, r, har, ?_⟩
    have hmem : a ∈ showInt v := by
      cases hs : showInt v with
      | nil => exact absurd hs (showInt_ne_nil v)
      | cons x y =>
        rw [hs, List.cons_append] at har
        cases har
        simp
    exact showInt_chars v a hmem
  have hnot : ∀ (a : Char) (r : Str), (a = '-' ∨ a.isDigit = true) →
      isWildcard (a :: r) = false := by
    intro a r ha
    have h1 : a ≠ 'a' ∧ a ≠ 'A' := by
      rcases ha with h | h
      · rw [h]; decide
      · constructor <;>
        · intro hc
          rw [hc] at h
          exact absurd h (by decide)
    simp [isWildcard, h1.1, h1.2]
  cases ids with
  | nil => decide
  | cons a l =>
    cases l with
    | nil =>
      obtain ⟨x, r, hxr, hx⟩ := hhead a []
      simp only [joinIds]
      rw [List.append_nil] at hxr
      rw [hxr]
      exact hnot x r hx
    | cons b l =>
      obtain ⟨x, r, hxr, hx⟩ := hhead a (',' :: joinIds (b :: l))
      simp only [joinIds]
      rw [hxr]
      exact hnot x r hx


/-- C4. For a store with pairwise distinct ids: given the text of any
comma-separated list `ids` of ids, `deleteObjects` succeeds (every `erase` is at
a position of the vector), on pipes it leaves exactly the pipes whose id is not
in `ids`, unchanged and in their order, and does not touch the stations or the
counters, and on stations likewise; ids of the list that match no record have
no effect.  More generally, for every input that is not a wildcard the records
removed are those whose id is named by a token of the input. -/
theorem C4_delete_by_id_list (s : PipelineSystem)
    (hp : (getPipeIds s).Nodup) (hs : (getStationIds s).Nodup) :
    (∀ ids : List Int, (∀ id ∈ ids, InInt id) →
      deleteObjects s true (joinIds ids) =
        some { s with pipes := s.pipes.filter (fun p => decide (p.id ∉ ids)) } ∧
      deleteObjects s false (joinIds ids) =
        some { s with stations := s.stations.filter (fun st => decide (st.id ∉ ids)) }) ∧
    (∀ input : Str, isWildcard input = false →
      deleteObjects s true input =
        some { s with pipes := s.pipes.filter (fun p => decide (p.id ∉ namedIds input)) } ∧
      deleteObjects s false input =
        some { s with stations :=
                 s.stations.filter (fun st => decide (st.id ∉ namedIds input)) }) := by
  have gen : ∀ input : Str, isWildcard input = false →
      deleteObjects s true input =
        some { s with pipes := s.pipes.filter (fun p => decide (p.id ∉ namedIds input)) } ∧
      deleteObjects s false input =
        some { s with stations :=
                 s.stations.filter (fun st => decide (st.id ∉ namedIds input)) } := by
    intro input hw
    have hsel : ∀ id, (!selected input id) = decide (id ∉ namedIds input) := by
      intro id; simp [selected, hw]
    constructor
    · rw [deleteObjects_pipes s input hp]
      simp only [hsel]
    · rw [deleteObjects_stations s input hs]
      simp only [hsel]
  refine ⟨?_, gen⟩
  intro ids hids
  have h := gen (joinIds ids) (isWildcard_joinIds ids)
  rw [namedIds_joinIds ids hids] at h
  exact h

/-- C4 on the store with pipes 1, 2, 3: the list 3, 9, 1 removes the pipes 3
and 1, ignores 9 and keeps pipe 2. -/
theorem C4_delete_by_id_list_witness :
    (getPipeIds threePipes).Nodup ∧ (getStationIds threePipes).Nodup ∧
    joinIds [3, 9, 1] = "3,9,1".toList ∧
    (deleteObjects threePipes true "3,9,1".toList).map (fun s => getPipeIds s) = some [2] ∧
    deleteObjects threePipes true (joinIds [3, 9, 1]) =
      some { threePipes with pipes :=
               threePipes.pipes.filter (fun p => decide (p.id ∉ [3, 9, 1])) } :=
  ⟨by decide, by decide, by decide, by decide,
    ((C4_delete_by_id_list threePipes (by decide) (by decide)).1 [3, 9, 1]
      (by decide)).1⟩


/-! ### Search by name -/

theorem startsWith_iff (pat text : Str) :
    startsWith pat text = true ↔ ∃ b, text = pat ++ b := by
  induction pat generalizing text with
  | nil => simp [startsWith]
  | cons p ps ih =>
    cases text with
    | nil => simp [startsWith]
    | cons c cs =>
      simp only [startsWith, Bool.and_eq_true, beq_iff_eq, ih, List.cons_append,
        List.cons.injEq]
      constructor
      · rintro ⟨rfl, b, rfl⟩; exact ⟨b, rfl, rfl⟩
      · rintro ⟨b, rfl, rfl⟩; exact ⟨rfl, b, rfl⟩

theorem strFind_isSome_iff (pat text : Str) :
    (strFind pat text).isSome = true ↔ Contains text pat := by
  induction text with
  | nil =>
    unfold strFind Contains
    split_ifs with h
    · rw [startsWith_iff] at h
      obtain ⟨b, hb⟩ := h
      simp only [Option.isSome_some, true_iff]
      exact ⟨[], b, by simpa using hb⟩
    · simp only [Option.isSome_none, Bool.false_eq_true, false_iff]
      rintro ⟨a, b, hab⟩
      apply h
      rw [startsWith_iff]
      have h1 : a = [] ∧ pat = [] ∧ b = [] := by
        have := congrArg List.length hab
        simp only [List.length_nil, List.length_append] at this
        refine ⟨?_, ?_, ?_⟩ <;> apply List.eq_nil_of_length_eq_zero <;> omega
      exact ⟨[], by rw [h1.2.1]; rfl⟩
  | cons c cs ih =>
    unfold strFind
    split_ifs with h
    · rw [startsWith_iff] at h
      obtain ⟨b, hb⟩ := h
      simp only [Option.isSome_some, true_iff]
      exact ⟨[], b, by simpa using hb⟩
    · rw [Option.isSome_map', ih]
      constructor
      · rintro ⟨a, b, hab⟩
        exact ⟨c :: a, b, by rw [hab]; rfl⟩
      · rintro ⟨a, b, hab⟩
        cases a with
        | nil =>
          exfalso
          apply h
          rw [startsWith_iff]
          exact ⟨b, by simpa using hab⟩
        | cons x a =>
          simp only [List.cons_append, List.cons.injEq] at hab
          exact ⟨a, b, hab.2⟩

theorem char_toLower_idem (c : Char) : c.toLower.toLower = c.toLower := by
  by_cases h : c.toNat ≥ 65 ∧ c.toNat ≤ 90
  · have hc : c = Char.ofNat c.toNat := (Char.ofNat_toNat c).symm
    generalize c.toNat = n at h hc
    subst hc
    obtain ⟨h1, h2⟩ := h
    interval_cases n <;> decide
  · have : c.toLower = c := by
      unfold Char.toLower
      simp only [h, if_false]
    rw [this, this]

theorem char_toLower_toUpper (c : Char) : c.toUpper.toLower = c.toLower := by
  by_cases h : c.toNat ≥ 97 ∧ c.toNat ≤ 122
  · have hc : c = Char.ofNat c.toNat := (Char.ofNat_toNat c).symm
    generalize c.toNat = n at h hc
    subst hc
    obtain ⟨h1, h2⟩ := h
    interval_cases n <;> decide
  · have : c.toUpper = c := by
      unfold Char.toUpper
      simp only [h, if_false]
    rw [this]

theorem toLower_caseVariants (q : Str) : ∀ v ∈ caseVariants q, toLower v = toLower q := by
  induction q with
  | nil => intro v hv; simp [caseVariants] at hv; rw [hv]
  | cons c cs ih =>
    intro v hv
    simp only [caseVariants, List.mem_flatMap, List.mem_cons, List.mem_singleton,
      List.not_mem_nil, or_false] at hv
    obtain ⟨w, hw, hv⟩ := hv
    have hw1 := ih w hw
    unfold toLower at hw1 ⊢
    rcases hv with rfl | rfl
    · simp only [List.map_cons, char_toLower_idem, hw1]
    · simp only [List.map_cons, char_toLower_toUpper, hw1]


theorem nameSearch_mem {α : Type} (l : List α) (name : α → Str) (q : Str) (i : Nat) :
    i ∈ indicesWhere (fun a => (strFind (toLower q) (toLower (name a))).isSome) l 0 ↔
      ∃ a, l[i]? = some a ∧ Contains (toLower (name a)) (toLower q) := by
  rw [indicesWhere_mem]
  simp only [Nat.zero_le, true_and, Nat.sub_zero, strFind_isSome_iff]

theorem nameSearch_names {α : Type} (l l1 : List α) (name : α → Str) (q : Str)
    (h : l1.map (fun a => toLower (name a)) = l.map (fun a => toLower (name a))) :
    indicesWhere (fun a => (strFind (toLower q) (toLower (name a))).isSome) l1 0 =
      indicesWhere (fun a => (strFind (toLower q) (toLower (name a))).isSome) l 0 := by
  have e := fun (x : List α) => indicesWhere_map (fun a => toLower (name a))
    (fun n => (strFind (toLower q) n).isSome) x 0
  rw [← e l1, ← e l, h]

theorem toLower_eq_self (str : Str) (h : ∀ c ∈ str, ¬ (65 ≤ c.toNat ∧ c.toNat ≤ 90)) :
    toLower str = str := by
  unfold toLower
  induction str with
  | nil => rfl
  | cons c cs ih =>
    have hc : c.toLower = c := by
      unfold Char.toLower
      simp only [ge_iff_le, h c (List.mem_cons_self _ _), if_false]
    rw [List.map_cons, hc, ih (fun x hx => h x (List.mem_cons_of_mem _ hx))]

/-- C11, as stated, fails for letters outside A-Z: the pipe named "Труба" is
found by the query "Труба" and not by the query "труба", which differs from it
in the case of the first letter only (`::tolower` runs in the "C" locale and
leaves these bytes as they are). -/
theorem C11_cyrillic_case_counterexample :
    toLower trubaUpper = trubaUpper ∧ toLower trubaLower = trubaLower ∧
    findPipesByName trubaStore trubaUpper = [0] ∧
    findPipesByName trubaStore trubaLower = [] ∧
    findPipesByName trubaStore trubaUpper ≠ findPipesByName trubaStore trubaLower := by
  decide

/-- C11, amended. `findPipesByName s q` is strictly ascending, hence without
duplicates, and holds exactly the positions `i` of the pipes for which
`toLower name` contains `toLower q` as a run of consecutive characters, where
`toLower` changes the letters A-Z only (a text without them is left as it
is).  So the result is the same for every query with the same `toLower` text,
in particular for every spelling of `q` in another mixture of upper and lower
case of the letters A-Z and a-z, and the same for every store whose pipe names
have the same `toLower` texts.  The same holds for `findStationsByName` over
the stations. -/
theorem C11_name_search_ascii_case (s : PipelineSystem) (q : Str) :
    ((findPipesByName s q).Sorted (· < ·) ∧ (findPipesByName s q).Nodup ∧
      (∀ i, i ∈ findPipesByName s q ↔
        ∃ p, s.pipes[i]? = some p ∧ Contains (toLower p.name) (toLower q)) ∧
      (∀ q1, toLower q1 = toLower q → findPipesByName s q1 = findPipesByName s q) ∧
      (∀ v ∈ caseVariants q, findPipesByName s v = findPipesByName s q) ∧
      (∀ s1 : PipelineSystem,
        s1.pipes.map (fun p => toLower p.name) = s.pipes.map (fun p => toLower p.name) →
        findPipesByName s1 q = findPipesByName s q)) ∧
    ((findStationsByName s q).Sorted (· < ·) ∧ (findStationsByName s q).Nodup ∧
      (∀ i, i ∈ findStationsByName s q ↔
        ∃ st, s.stations[i]? = some st ∧ Contains (toLower st.name) (toLower q)) ∧
      (∀ q1, toLower q1 = toLower q → findStationsByName s q1 = findStationsByName s q) ∧
      (∀ v ∈ caseVariants q, findStationsByName s v = findStationsByName s q) ∧
      (∀ s1 : PipelineSystem,
        s1.stations.map (fun st => toLower st.name) =
          s.stations.map (fun st => toLower st.name) →
        findStationsByName s1 q = findStationsByName s q)) ∧
    (∀ str : Str, (∀ c ∈ str, ¬ (65 ≤ c.toNat ∧ c.toNat ≤ 90)) → toLower str = str) := by
  have hp : ∀ q1, toLower q1 = toLower q → findPipesByName s q1 = findPipesByName s q := by
    intro q1 h
    unfold findPipesByName
    rw [h]
  have hs : ∀ q1, toLower q1 = toLower q →
      findStationsByName s q1 = findStationsByName s q := by
    intro q1 h
    unfold findStationsByName
    rw [h]
  refine ⟨⟨?_, ?_, ?_, hp, ?_, ?_⟩, ⟨?_, ?_, ?_, hs, ?_, ?_⟩, toLower_eq_self⟩
  · exact indicesWhere_sorted _ _ _
  · exact (indicesWhere_sorted _ s.pipes 0).nodup
  · intro i
    exact nameSearch_mem s.pipes (·.name) q i
  · intro v hv
    exact hp v (toLower_caseVariants q v hv)
  · intro s1 h
    exact nameSearch_names s.pipes s1.pipes (·.name) q h
  · exact indicesWhere_sorted _ _ _
  · exact (indicesWhere_sorted _ s.stations 0).nodup
  · intro i
    exact nameSearch_mem s.stations (·.name) q i
  · intro v hv
    exact hs v (toLower_caseVariants q v hv)
  · intro s1 h
    exact nameSearch_names s.stations s1.stations (·.name) q h


/-! ### Deleting everything -/

theorem eraseEach_all {α : Type} (l : List α) :
    eraseEach l (List.insertionSort (· ≥ ·) (List.range l.length)) = some [] := by
  have hsorted : (List.range l.length).Sorted (· < ·) := by
    rw [List.range_eq_range', ← indicesWhere_true l 0]
    exact indicesWhere_sorted _ _ _
  rw [insertionSort_ge_of_sorted_lt _ hsorted, List.range_eq_range', ← indicesWhere_true l 0,
    eraseEach_indicesWhere]
  simp

theorem deleteObjects_wildcard_pipes (s : PipelineSystem) (input : Str)
    (hw : isWildcard input = true) :
    deleteObjects s true input = some { s with pipes := [] } := by
  unfold deleteObjects selectMultipleObjects parseIndicesFromInput
  simp only [if_true, hw, getPipeIds]
  cases hp : s.pipes with
  | nil =>
    simp only [List.map_nil, List.isEmpty_nil, if_true]
    congr 1
    cases s
    simp only at hp
    subst hp
    rfl
  | cons p ps =>
    have h := eraseEach_all (p :: ps)
    simp only [List.length_cons] at h
    simp only [List.map_cons, List.isEmpty_cons, Bool.false_eq_true, if_false,
      List.length_cons, List.length_map]
    rw [if_neg (by simp [List.range_succ])]
    rw [h]
    rfl

/-- C12. For every store, `deleteObjects` on pipes with the input "all"
succeeds and leaves no pipe, the stations and both id counters being unchanged;
after it `findPipesByName` returns no position, whatever the name searched. -/
theorem C12_delete_all_empties_pipes (s : PipelineSystem) :
    deleteObjects s true "all".toList = some { s with pipes := [] } ∧
    (∀ s1, deleteObjects s true "all".toList = some s1 →
      s1.pipes = [] ∧ s1.stations = s.stations ∧ s1.nextPipeId = s.nextPipeId ∧
      s1.nextStationId = s.nextStationId ∧ ∀ q, findPipesByName s1 q = []) := by
  have h := deleteObjects_wildcard_pipes s "all".toList (by decide)
  refine ⟨h, ?_⟩
  intro s1 hs1
  rw [h] at hs1
  cases hs1
  exact ⟨rfl, rfl, rfl, rfl, fun q => rfl⟩


/-! ### The clamp of `loadData` -/

/-- C13 on a file with a station of 3 workshops stored with 9 active ones and a
station of 5 workshops stored with 2 active ones: the first is loaded with 3,
the second with 2. -/
theorem C13_clamp_on_load_example :
    overfullStore.Writable ∧
    (loadData (saveData overfullStore) Uninit.zero threePipes).2 = .loaded ∧
    (loadData (saveData overfullStore) Uninit.zero threePipes).1.stations.map
      (fun st => (st.totalWorkshops, st.activeWorkshops)) = [(3, 3), (5, 2)] := by
  decide


/-! ### File name of `saveData` -/

/-- C14, as stated, fails: the last components of "./backup" and "v1.2/data"
contain no point, yet `saveData` uses these names unchanged, without ".txt",
because a point occurs in a directory part. -/
theorem C14_extension_counterexample :
    ('.' ∉ lastComponent "./backup".toList ∧
      saveFileName "./backup".toList = "./backup".toList ∧
      saveFileName "./backup".toList ≠ "./backup".toList ++ ".txt".toList) ∧
    ('.' ∉ lastComponent "v1.2/data".toList ∧
      saveFileName "v1.2/data".toList = "v1.2/data".toList ∧
      saveFileName "v1.2/data".toList ≠ "v1.2/data".toList ++ ".txt".toList) := by
  decide

/-- C14, amended. `saveData` appends ".txt" exactly to the names that contain
no point at all (such as "data"); a name with a point anywhere, in its last
component or in a directory part, is used unchanged. -/
theorem C14_default_extension (filename : Str) :
    ('.' ∉ filename → saveFileName filename = filename ++ ".txt".toList) ∧
    ('.' ∈ filename → saveFileName filename = filename) ∧
    saveFileName "data".toList = "data.txt".toList := by
  refine ⟨?_, ?_, by decide⟩
  · intro h
    unfold saveFileName
    rw [if_neg]
    simpa using h
  · intro h
    unfold saveFileName
    rw [if_pos]
    simpa using h


end Lab3
